import Mathlib

/-!
Verification development for the sculk code-generation backend
(src/backend/codegen.rs).  The data model and the lowering pipeline are
embedded shallowly: stateful Rust code becomes explicit state passing, the
`unwrap`/panic sites become `Option` failures, and the recursive AST walk is
indexed by a fuel parameter so that every definition is executable by the
kernel.  A handful of collaborator types (`ResourceLocation`,
`ScoreboardEntry`, `Function::make_anonymous_child`, the signature table)
live outside src/ and are modelled from the spec, as marked on each.
-/

namespace Sculk

/-- Modelled from the spec: `ResourceLocation` lives in data.rs, which is not
under src/.  "A namespaced path of the form `<namespace>:<path>`; also
supports a variant serialized with `.` as separator" (spec section 3).
`new` uses `:`, `scoreboard` uses `.`, and `with_separator` swaps the
separator character. -/
structure ResourceLocation where
  ns : String
  path : String
  sep : Char
deriving DecidableEq, Repr

/-- `ResourceLocation::new` — the `:`-separated form. -/
def ResourceLocation.new (ns path : String) : ResourceLocation :=
  ⟨ns, path, ':'⟩

/-- `ResourceLocation::scoreboard` — the `.`-separated form used for register
namespaces. -/
def ResourceLocation.scoreboard (ns path : String) : ResourceLocation :=
  ⟨ns, path, '.'⟩

/-- `ResourceLocation::with_separator`. -/
def ResourceLocation.with_separator (l : ResourceLocation) (c : Char) :
    ResourceLocation :=
  { l with sep := c }

/-- The `Display` rendering of a `ResourceLocation`:
`<namespace><sep><path>`. -/
def ResourceLocation.str (l : ResourceLocation) : String :=
  l.ns ++ String.mk [l.sep] ++ l.path

/-- Modelled from the spec: `ScoreboardEntry` lives in data.rs, which is not
under src/.  "A pair (scoreboard, player). Rendered as
`<player> <scoreboard-as-dotted>`" (spec section 3). -/
structure ScoreboardEntry where
  scoreboard : ResourceLocation
  player : String
deriving DecidableEq, Repr

/-- The `Display` rendering of a `ScoreboardEntry`, used inside `execute`
condition strings. -/
def ScoreboardEntry.str (e : ScoreboardEntry) : String :=
  e.player ++ " " ++ e.scoreboard.str

/-- The parser's `Operation` enumeration (operators appearing in the AST). -/
inductive Operation where
  | Add | Subtract | Multiply | Divide | Modulo
  | GreaterThan | LessThan | GreaterThanOrEquals | LessThanOrEquals
  | CheckEquals | NotEquals
  | Negate | Not
deriving DecidableEq, Repr

/-- The `Action` enum of codegen.rs: one emitted primitive command. -/
inductive Action where
  | CreateStorage (name : String)
  | SetVariableToNumber (var : ScoreboardEntry) (val : Int)
  | AddVariables (first second : ScoreboardEntry)
  | SubtractVariables (first second : ScoreboardEntry)
  | MultiplyVariables (first second : ScoreboardEntry)
  | DivideVariables (first second : ScoreboardEntry)
  | ModuloVariables (first second : ScoreboardEntry)
  | SetVariableToVariable (first second : ScoreboardEntry)
  | CallFunction (target : ResourceLocation)
  | ExecuteIf (condition : String) (thenAction : Action)
  | ExecuteUnless (condition : String) (thenAction : Action)
  | Direct (command : String)
  | Return
deriving DecidableEq, Repr

/-- The `EvaluationInstruction` enum of codegen.rs: the postfix instruction
stream an `EvaluationStack` consumes. -/
inductive EvaluationInstruction where
  | PushNumber (n : Int)
  | PushBool (b : Bool)
  | PushVariable (v : ScoreboardEntry)
  | Operation (op : Operation)
  | CallFunction (f : ResourceLocation) (args : List String)
deriving DecidableEq, Repr

/-- The `EvaluationStack` struct of codegen.rs.  `available_tmps` is kept
with the most recently pushed index at the head (the Rust `Vec` pushes and
pops at its end); `max_tmps` is the high-water mark of temporary indices. -/
structure EvaluationStack where
  instructions : List EvaluationInstruction
  available_tmps : List Int
  max_tmps : Int
  scoreboard : ResourceLocation
deriving DecidableEq, Repr

/-- `EvaluationStack::new`. -/
def EvaluationStack.new (scoreboard : ResourceLocation) (min_tmp : Int) :
    EvaluationStack :=
  ⟨[], [], min_tmp, scoreboard⟩

/-- `EvaluationStack::get_tmp`: the register `TMP<num>` in the stack's
scoreboard. -/
def getTmp (scoreboard : ResourceLocation) (num : Int) : ScoreboardEntry :=
  ⟨scoreboard, "TMP" ++ toString num⟩

/-- The in-flight state of one `EvaluationStack::flush`: the actions emitted
so far (in emission order), the free list, the high-water mark, and
`intermediate_tmps` (head = most recently pushed, i.e. the end of the Rust
`Vec`). -/
structure FlushState where
  actions : List Action
  available : List Int
  maxTmps : Int
  intermediates : List Int
deriving DecidableEq, Repr

/-- `EvaluationStack::reserve_available_tmp`: pop the free list, or grow the
high-water mark. -/
def reserveAvailableTmp (fs : FlushState) : Int × FlushState :=
  match fs.available with
  | t :: rest => (t, { fs with available := rest })
  | [] => (fs.maxTmps + 1, { fs with maxTmps := fs.maxTmps + 1 })

/-- `EvaluationStack::free_tmp`: push an index back onto the free list. -/
def freeTmp (fs : FlushState) (num : Int) : FlushState :=
  { fs with available := num :: fs.available }

/-- `EvaluationStack::emit_action` as it applies during a flush. -/
def flushEmit (fs : FlushState) (a : Action) : FlushState :=
  { fs with actions := fs.actions ++ [a] }

/-- A loop of `emit_action` calls. -/
def flushEmitAll (fs : FlushState) (acts : List Action) : FlushState :=
  acts.foldl flushEmit fs

@[simp] lemma flushEmitAll_eq (fs : FlushState) (acts : List Action) :
    flushEmitAll fs acts = { fs with actions := fs.actions ++ acts } := by
  induction acts generalizing fs with
  | nil => simp [flushEmitAll]
  | cons a t ih =>
      simp only [flushEmitAll, List.foldl_cons] at ih ⊢
      rw [ih]
      simp [flushEmit]

/-- The conditional-set emitted for a comparison operator in
`EvaluationStack::flush`: a subtraction has already been emitted, and this
action writes 1 into `TMP<a>` when the difference lies in the operator's
range.  Returns `none` on the `panic!("unsupported operation")` arm. -/
def comparisonSetAction (op : Operation) (ta : ScoreboardEntry) :
    Option Action :=
  match op with
  | .GreaterThan =>
      some (.ExecuteIf ("score " ++ ta.str ++ " matches 1..")
        (.SetVariableToNumber ta 1))
  | .LessThan =>
      some (.ExecuteIf ("score " ++ ta.str ++ " matches ..-1")
        (.SetVariableToNumber ta 1))
  | .GreaterThanOrEquals =>
      some (.ExecuteIf ("score " ++ ta.str ++ " matches 0..")
        (.SetVariableToNumber ta 1))
  | .LessThanOrEquals =>
      some (.ExecuteIf ("score " ++ ta.str ++ " matches ..0")
        (.SetVariableToNumber ta 1))
  | .CheckEquals =>
      some (.ExecuteIf ("score " ++ ta.str ++ " matches 0")
        (.SetVariableToNumber ta 1))
  | .NotEquals =>
      some (.ExecuteUnless ("score " ++ ta.str ++ " matches 0")
        (.SetVariableToNumber ta 1))
  | _ => none

/-- The `Operation(op)` arm of `EvaluationStack::flush` after the two operand
temporaries have been read: emit the primitive action(s).  Arithmetic is one
in-place action; comparisons are a subtraction plus a conditional set.  The
final `_ => panic!` arm becomes `none`. -/
def operationActions (op : Operation) (ta tb : ScoreboardEntry) :
    Option (List Action) :=
  match op with
  | .Add => some [.AddVariables ta tb]
  | .Subtract => some [.SubtractVariables ta tb]
  | .Multiply => some [.MultiplyVariables ta tb]
  | .Divide => some [.DivideVariables ta tb]
  | .Modulo => some [.ModuloVariables ta tb]
  | _ => do
      let c ← comparisonSetAction op ta
      pure [.SubtractVariables ta tb, c]

/-- One iteration of the instruction loop inside `EvaluationStack::flush`.
Every `unwrap`/underflow in the Rust code becomes a `none`. -/
def flushStep (sb : ResourceLocation) (fs : FlushState)
    (instr : EvaluationInstruction) : Option FlushState :=
  match instr with
  | .PushNumber num =>
      let (tmpIdx, fs) := reserveAvailableTmp fs
      let fs := flushEmit fs (.SetVariableToNumber (getTmp sb tmpIdx) num)
      some { fs with intermediates := tmpIdx :: fs.intermediates }
  | .PushBool b =>
      let (tmpIdx, fs) := reserveAvailableTmp fs
      let boolVal : Int := if b then 1 else 0
      let fs := flushEmit fs (.SetVariableToNumber (getTmp sb tmpIdx) boolVal)
      some { fs with intermediates := tmpIdx :: fs.intermediates }
  | .PushVariable name =>
      let (tmpIdx, fs) := reserveAvailableTmp fs
      let fs := flushEmit fs (.SetVariableToVariable (getTmp sb tmpIdx) name)
      some { fs with intermediates := tmpIdx :: fs.intermediates }
  | .Operation op =>
      -- pop b, peek a (without popping)
      match fs.intermediates with
      | tmpB :: tmpA :: rest => do
          let acts ← operationActions op (getTmp sb tmpA) (getTmp sb tmpB)
          let fs := flushEmitAll fs acts
          -- tmp_b is no longer needed, free it
          pure (freeTmp { fs with intermediates := tmpA :: rest } tmpB)
      | _ => none
  | .CallFunction func args =>
      if args.length ≤ fs.intermediates.length then
        -- split_off takes the last |args| pushed temporaries; with the head
        -- of `intermediates` being the most recent, those are the first
        -- |args| entries, reversed back into push order.
        let argTmps := (fs.intermediates.take args.length).reverse
        let fs := { fs with intermediates := fs.intermediates.drop args.length }
        let fs := flushEmitAll fs ((args.zip argTmps).map
          (fun p => Action.SetVariableToVariable
            ⟨func.with_separator '.', p.1⟩ (getTmp sb p.2)))
        let fs := flushEmit fs (.CallFunction func)
        let fs := argTmps.foldl freeTmp fs
        let (retTmp, fs) := reserveAvailableTmp fs
        let fs := flushEmit fs
          (.SetVariableToVariable (getTmp sb retTmp)
            ⟨func.with_separator '.', "RET"⟩)
        some { fs with intermediates := retTmp :: fs.intermediates }
      else
        none

/-- The instruction loop of `EvaluationStack::flush`. -/
def flushGo (sb : ResourceLocation) :
    List EvaluationInstruction → FlushState → Option FlushState
  | [], fs => some fs
  | instr :: rest, fs => do
      let fs ← flushStep sb fs instr
      flushGo sb rest fs

/-- The outcome of a complete `EvaluationStack::flush`: the returned
temporary index, the emitted actions, and the final free list and high-water
mark of the stack. -/
structure FlushResult where
  result : Int
  actions : List Action
  available : List Int
  maxTmps : Int
deriving DecidableEq, Repr

/-- `EvaluationStack::flush`.  After the loop, the first temporary ever
pushed is the target; with exactly two survivors the last is copied into the
first when they differ; every surviving intermediate is then freed and the
target index is returned. -/
def EvaluationStack.flush (st : EvaluationStack) : Option FlushResult := do
  let fs ← flushGo st.scoreboard st.instructions
    ⟨[], st.available_tmps, st.max_tmps, []⟩
  -- Rust `intermediate_tmps.first()`: the oldest entry, i.e. our last.
  let targetTmp ← fs.intermediates.getLast?
  let fs :=
    match fs.intermediates with
    | [resultTmp, _] =>
        if resultTmp ≠ targetTmp then
          flushEmit fs
            (.SetVariableToVariable (getTmp st.scoreboard targetTmp)
              (getTmp st.scoreboard resultTmp))
        else fs
    | _ => fs
  -- free every remaining intermediate (oldest first in Rust order)
  let fs := fs.intermediates.reverse.foldl freeTmp fs
  pure ⟨targetTmp, fs.actions, fs.available, fs.maxTmps⟩

/-! ## The AST and the external collaborators' outputs -/

/-- The `ParserNode` AST (the parser's output, consumed by codegen after the
rebranch pass).  Variable declarations carry a type that codegen ignores
(`ty: _` in the match), so it is dropped here. -/
inductive ParserNode where
  | NumberLiteral (n : Int)
  | BoolLiteral (b : Bool)
  | Identifier (name : String)
  | Operation (lhs rhs : ParserNode) (op : Operation)
  | OpEquals (name : String) (expr : ParserNode) (op : Operation)
  | VariableDeclaration (name : String) (expr : ParserNode)
  | VariableAssignment (name : String) (expr : ParserNode)
  | Program (nodes : List ParserNode)
  | FunctionDeclaration (name : String) (args : List ParserNode)
      (body : ParserNode)
  | FunctionCall (name : String) (args : List ParserNode)
  | Return (expr : Option ParserNode)
  | Block (nodes : List ParserNode)
  | TypedIdentifier
  | Unary (expr : ParserNode) (op : Operation)
  | If (cond body : ParserNode) (elseIfs : List (ParserNode × ParserNode))
      (elseBody : Option ParserNode)
  | For (init cond step body : ParserNode)
  | Break
  | CommandLiteral (command : String)
  | StructDefinition

/-- Modelled from the spec: the type pool lives in backend/type_pool.rs,
which is not under src/.  Codegen only compares a return type against the
distinguished `none()` marker, so a small enumeration suffices
(spec section 6: "type_pool with a distinguished none() type"). -/
inductive Ty where
  | none | int | bool
deriving DecidableEq, Repr

/-- Modelled from the spec: `FunctionSignature`/`ParamDef` live in
backend/function.rs, which is not under src/.  "a table of function
signatures (parameter list with names and types, return type)";
"`ParamDef` carries at minimum a name string" (spec sections 2 and 6).
Codegen reads only the parameter names and the return type. -/
structure FunctionSignature where
  params : List String
  returnType : Ty
deriving DecidableEq, Repr

/-- The inputs fixed for a whole compilation: the namespace and the
validator's signature table.  Codegen never mutates either. -/
structure Env where
  ns : String
  sigs : List (String × FunctionSignature)
deriving Repr

/-- A completed (`ready`) function: codegen reads back its name, scoreboard,
anonymity flag and action list. -/
structure Function where
  name : String
  scoreboard : ResourceLocation
  actions : List Action
  isAnonymous : Bool
deriving DecidableEq, Repr

/-- The identity of an unfinished `Function` builder on the
`unfinished_functions` stack.  Its growing action list is threaded
separately (every write in codegen.rs is an append to the top builder, so
each visit returns the actions it appended).  `anonChildren` is the
builder's monotone suffix generator for anonymous children.

Modelled from the spec where backend/function.rs is missing:
"Two distinct fresh anonymous children derived from the same parent must
have distinct names; a stable monotone suffix generator is required"
(spec section 3), with the names `main/0`, `main/1`, ... used by the
spec's concrete scenarios. -/
structure FuncCtx where
  name : String
  scoreboard : ResourceLocation
  isAnonymous : Bool
  anonChildren : Nat
deriving DecidableEq, Repr

/-- `Function::make_anonymous_child` (modelled from the spec, see
`FuncCtx`): a fresh anonymous child sharing the parent's scoreboard, named
`<parent>/<counter>`. -/
def FuncCtx.makeAnonymousChild (parent : FuncCtx) : FuncCtx × FuncCtx :=
  (⟨parent.name ++ "/" ++ toString parent.anonChildren,
    parent.scoreboard, true, 0⟩,
   { parent with anonChildren := parent.anonChildren + 1 })

/-- The mutable traversal state of `CodeGenerator` (minus the per-call
namespace and signature table, which are immutable and live in `Env`, and
minus `anon_func_depth`, which codegen.rs never reads or writes). -/
structure CGState where
  ctxStack : List FuncCtx
  ready : List Function
  evalStacks : List EvaluationStack
  binOpDepth : Int
  flagTmpCount : Int
  loopDepth : Int
  propagateReturn : Bool
  propagateBreak : Bool
deriving Repr

/-- The fresh state codegen starts from in `compile_src`. -/
def CGState.initial : CGState := ⟨[], [], [], 0, 0, 0, false, false⟩

/-- `ready_functions.insert` — the `HashMap` keyed by function name:
replace an existing entry with the same name, otherwise append.  (The Rust
map is unordered; keeping insertion order is a determinization, and no
theorem below depends on that order beyond the map's key semantics.) -/
def readyInsert : List Function → Function → List Function
  | [], f => [f]
  | g :: gs, f => if g.name = f.name then f :: gs else g :: readyInsert gs f

/-- `CodeGenerator::local_variable`: a register named `name` in the current
function's scoreboard. -/
def localVariable (ctx : FuncCtx) (name : String) : ScoreboardEntry :=
  ⟨ctx.scoreboard, name⟩

/-- `CodeGenerator::get_tmp`. -/
def ctxTmp (ctx : FuncCtx) (num : Int) : ScoreboardEntry :=
  localVariable ctx ("TMP" ++ toString num)

/-- `CodeGenerator::current_break_flag`: `BREAKFLAG<loop_depth>`. -/
def currentBreakFlag (st : CGState) (ctx : FuncCtx) : ScoreboardEntry :=
  localVariable ctx ("BREAKFLAG" ++ toString st.loopDepth)

/-- `CodeGenerator::push_eval_instr`: push onto the top `EvaluationStack`
(the Rust `last_mut().unwrap()` fails when no stack is open). -/
def pushEvalInstr (st : CGState) (instr : EvaluationInstruction) :
    Option CGState :=
  match st.evalStacks with
  | [] => none
  | es :: rest =>
      some { st with evalStacks :=
        { es with instructions := es.instructions ++ [instr] } :: rest }

/-- `CodeGenerator::begin_evaluation_for_scoreboard` (all call sites pass
`min_tmp = 0`). -/
def beginEvaluation (sb : ResourceLocation) (st : CGState) : CGState :=
  { st with evalStacks := EvaluationStack.new sb 0 :: st.evalStacks }

/-- `CodeGenerator::end_current_evaluation`: pop the top stack, flush it,
and hand back the result temporary plus the flushed actions (which the Rust
code splices into the current function). -/
def endCurrentEvaluation (st : CGState) :
    Option (Int × List Action × CGState) :=
  match st.evalStacks with
  | [] => none
  | es :: rest => do
      let fr ← es.flush
      pure (fr.result, fr.actions, { st with evalStacks := rest })

/-- Pop the top `Function` builder identity
(`unfinished_functions.pop().unwrap()`). -/
def popCtx (st : CGState) : Option (FuncCtx × CGState) :=
  match st.ctxStack with
  | [] => none
  | c :: rest => some (c, { st with ctxStack := rest })

/-- `CodeGenerator::account_for_return` and `::account_for_break` composed
(`account_for_jumps`): the guard actions appended to the current function,
driven by the transient latches. -/
def accountForJumps (st : CGState) : Option (List Action) := do
  let retActs ←
    if st.propagateReturn then do
      let ctx ← st.ctxStack.head?
      pure [Action.ExecuteIf
        ("score " ++ (localVariable ctx "RETFLAG").str ++ " matches 1")
        .Return]
    else pure []
  let breakActs ←
    if st.propagateBreak then do
      let ctx ← st.ctxStack.head?
      pure [Action.ExecuteIf
        ("score " ++ (currentBreakFlag st ctx).str ++ " matches 1")
        .Return]
    else pure []
  pure (retActs ++ breakActs)

/-- The type of the recursive visitor a handler calls back into
(`CodeGenerator::visit_node` at one less fuel). -/
abbrev Visitor := ParserNode → CGState → Option (CGState × List Action)

/-- `CodeGenerator::visit_binary_operation`: lhs, then rhs, then the
operator instruction. -/
def visitBinaryOperation (v : Visitor) (lhs rhs : ParserNode)
    (op : Operation) (st : CGState) : Option (CGState × List Action) := do
  let st := { st with binOpDepth := st.binOpDepth + 1 }
  let (st, d1) ← v lhs st
  let (st, d2) ← v rhs st
  let st ← pushEvalInstr st (.Operation op)
  pure ({ st with binOpDepth := st.binOpDepth - 1 }, d1 ++ d2)

/-- `CodeGenerator::visit_op_equals`: evaluate the right-hand side in a
fresh stack, then emit the matching in-place primitive.  Operators other
than the five arithmetic ones hit `unreachable!()`. -/
def visitOpEquals (v : Visitor) (name : String) (expr : ParserNode)
    (op : Operation) (st : CGState) : Option (CGState × List Action) := do
  let ctx ← st.ctxStack.head?
  let st := beginEvaluation ctx.scoreboard st
  let (st, d) ← v expr st
  let (resultTmp, flushActs, st) ← endCurrentEvaluation st
  let ctx2 ← st.ctxStack.head?
  let first := localVariable ctx2 name
  let second := ctxTmp ctx2 resultTmp
  let act ← match op with
    | .Add => some (Action.AddVariables first second)
    | .Subtract => some (Action.SubtractVariables first second)
    | .Multiply => some (Action.MultiplyVariables first second)
    | .Divide => some (Action.DivideVariables first second)
    | .Modulo => some (Action.ModuloVariables first second)
    | _ => none   -- unreachable!(): caught upstream by the validator
  pure (st, d ++ flushActs ++ [act])

/-- `CodeGenerator::visit_variable_assignment` (shared by declarations and
assignments): evaluate in a fresh stack, then copy the result temporary
into the named register. -/
def visitVariableAssignment (v : Visitor) (name : String)
    (expr : ParserNode) (st : CGState) : Option (CGState × List Action) := do
  let ctx ← st.ctxStack.head?
  let st := beginEvaluation ctx.scoreboard st
  let (st, d) ← v expr st
  let (resultTmp, flushActs, st) ← endCurrentEvaluation st
  let ctx2 ← st.ctxStack.head?
  pure (st, d ++ flushActs ++
    [Action.SetVariableToVariable (localVariable ctx2 name)
      (ctxTmp ctx2 resultTmp)])

/-- `CodeGenerator::visit_program` / `visit_block`: visit children in
order, concatenating the actions each appends. -/
def visitSeq (v : Visitor) : List ParserNode → CGState →
    Option (CGState × List Action)
  | [], st => pure (st, [])
  | n :: rest, st => do
      let (st, d) ← v n st
      let (st, ds) ← visitSeq v rest st
      pure (st, d ++ ds)

/-- `CodeGenerator::visit_function_declaration`: look up the signature, push
a fresh builder, emit the `RETFLAG := 0` prelude when the return type is not
`none`, visit the body, pop the builder into `ready_functions` and reset
`flag_tmp_count`. -/
def visitFunctionDeclaration (env : Env) (v : Visitor) (name : String)
    (body : ParserNode) (st : CGState) : Option (CGState × List Action) := do
  let sig ← env.sigs.lookup name
  let newCtx : FuncCtx :=
    ⟨name, ResourceLocation.scoreboard env.ns name, false, 0⟩
  let st := { st with ctxStack := newCtx :: st.ctxStack }
  let preludeActs : List Action :=
    if sig.returnType ≠ Ty.none then
      [Action.SetVariableToNumber (localVariable newCtx "RETFLAG") 0]
    else []
  let (st, dBody) ← v body st
  let (fin, st) ← popCtx st
  let f : Function :=
    ⟨fin.name, fin.scoreboard, preludeActs ++ dBody, fin.isAnonymous⟩
  let st := { st with ready := readyInsert st.ready f, flagTmpCount := 0 }
  pure (st, [])

/-- `CodeGenerator::visit_function_call`: open a stack when none is open
(statement context), visit the arguments, push the `CallFunction`
instruction carrying the signature's parameter names, and flush if this
call opened the stack. -/
def visitFunctionCall (env : Env) (v : Visitor) (name : String)
    (args : List ParserNode) (st : CGState) :
    Option (CGState × List Action) := do
  let useNewStack := st.evalStacks.isEmpty
  let st ←
    if useNewStack then do
      let ctx ← st.ctxStack.head?
      pure (beginEvaluation ctx.scoreboard st)
    else pure st
  let (st, dArgs) ← visitSeq v args st
  let sig ← env.sigs.lookup name
  let st ← pushEvalInstr st
    (.CallFunction (ResourceLocation.new env.ns name) sig.params)
  if useNewStack then do
    let (_, flushActs, st) ← endCurrentEvaluation st
    pure (st, dArgs ++ flushActs)
  else
    pure (st, dArgs)

/-- `CodeGenerator::visit_return`: optionally evaluate the return value
into `RET`, set `RETFLAG := 1`, emit `Return`, and latch
`propagate_return`. -/
def visitReturn (v : Visitor) (expr : Option ParserNode) (st : CGState) :
    Option (CGState × List Action) :=
  match expr with
  | some e => do
      let ctx ← st.ctxStack.head?
      let st := beginEvaluation ctx.scoreboard st
      let (st, d) ← v e st
      let (resultTmp, flushActs, st) ← endCurrentEvaluation st
      let ctx2 ← st.ctxStack.head?
      pure ({ st with propagateReturn := true },
        d ++ flushActs ++
          [Action.SetVariableToVariable (localVariable ctx2 "RET")
            (ctxTmp ctx2 resultTmp),
           Action.SetVariableToNumber (localVariable ctx2 "RETFLAG") 1,
           Action.Return])
  | none => do
      let ctx ← st.ctxStack.head?
      pure ({ st with propagateReturn := true },
        [Action.SetVariableToNumber (localVariable ctx "RETFLAG") 1,
         Action.Return])

/-- `CodeGenerator::visit_unary`: `-e` lowers as `e * -1`, `!e` as
`1 - e`. -/
def visitUnary (v : Visitor) (expr : ParserNode) (op : Operation)
    (st : CGState) : Option (CGState × List Action) :=
  match op with
  | .Negate => do
      let (st, d) ← v expr st
      let st ← pushEvalInstr st (.PushNumber (-1))
      let st ← pushEvalInstr st (.Operation .Multiply)
      pure (st, d)
  | .Not => do
      let st ← pushEvalInstr st (.PushNumber 1)
      let (st, d) ← v expr st
      let st ← pushEvalInstr st (.Operation .Subtract)
      pure (st, d)
  | _ => none   -- unreachable!()

/-- The first half of `CodeGenerator::visit_if` (the handler is split into
stages purely to keep each definition small; their composition in `visitIf`
is the handler): lower the condition, bump `flag_tmp_count`, build the
anonymous then-child, visit the then-body into it, pop it into
`ready_functions`, emit the guarded call and run jump accounting.  Returns
the actions appended so far and the condition's result temporary.  The
mutation of the parent builder by `make_anonymous_child` is rendered as
pop/replace of the stack top. -/
def visitIfThen (env : Env) (v : Visitor) (cond body : ParserNode)
    (st : CGState) : Option (CGState × List Action × Int) := do
  let ctx ← st.ctxStack.head?
  let st := beginEvaluation ctx.scoreboard st
  let (st, dCond) ← v cond st
  let (resultTmp, flushActs, st) ← endCurrentEvaluation st
  -- flag_tmp is read but never used; the counter is still bumped
  let st := { st with flagTmpCount := st.flagTmpCount + 1 }
  let (parent, st2) ← popCtx st
  let (trueCtx, parent2) := parent.makeAnonymousChild
  let st := { st2 with ctxStack := trueCtx :: parent2 :: st2.ctxStack }
  let (st, dBody) ← v body st
  let (finT, st) ← popCtx st
  let fT : Function := ⟨finT.name, finT.scoreboard, dBody, finT.isAnonymous⟩
  let st := { st with ready := readyInsert st.ready fT }
  let ctx2 ← st.ctxStack.head?
  let guardTrue := Action.ExecuteIf
    ("score " ++ (ctxTmp ctx2 resultTmp).str ++ " matches 1")
    (.CallFunction (ResourceLocation.new env.ns trueCtx.name))
  let gj1 ← accountForJumps st
  pure (st, dCond ++ flushActs ++ [guardTrue] ++ gj1, resultTmp)

/-- The else-arm of `CodeGenerator::visit_if`: build the anonymous
else-child, visit the else-body into it, pop it into `ready_functions`,
emit the `ExecuteUnless` guard over the same condition temporary. -/
def visitIfElse (env : Env) (v : Visitor) (eb : ParserNode)
    (resultTmp : Int) (st : CGState) : Option (CGState × List Action) := do
  let (parent3, st3) ← popCtx st
  let (falseCtx, parent4) := parent3.makeAnonymousChild
  let st := { st3 with ctxStack := falseCtx :: parent4 :: st3.ctxStack }
  let (st, dElse) ← v eb st
  let (finF, st) ← popCtx st
  let fF : Function :=
    ⟨finF.name, finF.scoreboard, dElse, finF.isAnonymous⟩
  let st := { st with ready := readyInsert st.ready fF }
  let ctx3 ← st.ctxStack.head?
  let guardFalse := Action.ExecuteUnless
    ("score " ++ (ctxTmp ctx3 resultTmp).str ++ " matches 1")
    (.CallFunction (ResourceLocation.new env.ns falseCtx.name))
  pure (st, [guardFalse])

/-- `CodeGenerator::visit_if` (else-ifs are gone after the rebranch pass):
the then-stage, then for an else-body the else-stage followed by its own
jump accounting. -/
def visitIf (env : Env) (v : Visitor) (cond body : ParserNode)
    (elseBody : Option ParserNode) (st : CGState) :
    Option (CGState × List Action) := do
  let (st, dThen, resultTmp) ← visitIfThen env v cond body st
  match elseBody with
  | some eb => do
      let (st, dElse) ← visitIfElse env v eb resultTmp st
      let gj2 ← accountForJumps st
      pure (st, dThen ++ dElse ++ gj2)
  | none => do
      let gj2 ← accountForJumps st
      pure (st, dThen ++ gj2)

/-- The first half of `CodeGenerator::visit_for` (split into stages, see
`visitIfThen`): bump `loop_depth`, visit init in the enclosing function,
build the anonymous loop child, visit body and step into it, lower the
condition inside it (first lowering, fresh stack), emit the guarded
self-recursive call as its final action and pop it into `ready_functions`.
Returns the init actions and the loop child's identity. -/
def visitForLoop (env : Env) (v : Visitor) (init cond step body : ParserNode)
    (st : CGState) : Option (CGState × List Action × FuncCtx) := do
  let st := { st with loopDepth := st.loopDepth + 1 }
  let (st, dInit) ← v init st
  let (parent, st2) ← popCtx st
  let (loopCtx, parent2) := parent.makeAnonymousChild
  let st := { st2 with ctxStack := loopCtx :: parent2 :: st2.ctxStack }
  let (st, dBody) ← v body st
  let (st, dStep) ← v step st
  let ctxL ← st.ctxStack.head?
  let st := beginEvaluation ctxL.scoreboard st
  let (st, dCond1) ← v cond st
  let (t1, flushActs1, st) ← endCurrentEvaluation st
  let ctxL2 ← st.ctxStack.head?
  let selfGuard := Action.ExecuteIf
    ("score " ++ (ctxTmp ctxL2 t1).str ++ " matches 1")
    (.CallFunction (ResourceLocation.new env.ns loopCtx.name))
  let (finL, st) ← popCtx st
  let fL : Function :=
    ⟨finL.name, finL.scoreboard,
      dBody ++ dStep ++ dCond1 ++ flushActs1 ++ [selfGuard],
      finL.isAnonymous⟩
  let st := { st with ready := readyInsert st.ready fL }
  pure (st, dInit, loopCtx)

/-- The second half of `CodeGenerator::visit_for`: lower the condition a
second time (fresh stack) in the enclosing function, emit the guarded
entry call, clear `propagate_break`, run jump accounting and restore
`loop_depth`. -/
def visitForEntry (env : Env) (v : Visitor) (cond : ParserNode)
    (loopCtx : FuncCtx) (dInit : List Action) (st : CGState) :
    Option (CGState × List Action) := do
  let ctxP ← st.ctxStack.head?
  let st := beginEvaluation ctxP.scoreboard st
  let (st, dCond2) ← v cond st
  let (t2, flushActs2, st) ← endCurrentEvaluation st
  let st := { st with flagTmpCount := st.flagTmpCount + 1 }
  let ctxP2 ← st.ctxStack.head?
  let entryGuard := Action.ExecuteIf
    ("score " ++ (ctxTmp ctxP2 t2).str ++ " matches 1")
    (.CallFunction (ResourceLocation.new env.ns loopCtx.name))
  let st := { st with propagateBreak := false }
  let gj ← accountForJumps st
  let st := { st with loopDepth := st.loopDepth - 1 }
  pure (st, dInit ++ dCond2 ++ flushActs2 ++ [entryGuard] ++ gj)

/-- `CodeGenerator::visit_for`: the loop-child stage followed by the
entry-guard stage. -/
def visitFor (env : Env) (v : Visitor) (init cond step body : ParserNode)
    (st : CGState) : Option (CGState × List Action) := do
  let (st, dInit, loopCtx) ← visitForLoop env v init cond step body st
  visitForEntry env v cond loopCtx dInit st

/-- The `match node` dispatch inside `CodeGenerator::visit_node`, with the
trivial handlers (`visit_number`, `visit_bool`, `visit_identifier`,
`visit_break`, `visit_command_literal`) inlined. -/
def visitDispatch (env : Env) (v : Visitor) (node : ParserNode)
    (st : CGState) : Option (CGState × List Action) :=
  match node with
  | .NumberLiteral num => do
      let st ← pushEvalInstr st (.PushNumber num)
      pure (st, [])
  | .BoolLiteral b => do
      let st ← pushEvalInstr st (.PushBool b)
      pure (st, [])
  | .Identifier name => do
      let ctx ← st.ctxStack.head?
      let st ← pushEvalInstr st (.PushVariable (localVariable ctx name))
      pure (st, [])
  | .Operation lhs rhs op => visitBinaryOperation v lhs rhs op st
  | .OpEquals name expr op => visitOpEquals v name expr op st
  | .VariableDeclaration name expr => visitVariableAssignment v name expr st
  | .VariableAssignment name expr => visitVariableAssignment v name expr st
  | .Program nodes => visitSeq v nodes st
  | .FunctionDeclaration name _args body =>
      visitFunctionDeclaration env v name body st
  | .FunctionCall name args => visitFunctionCall env v name args st
  | .Return expr => visitReturn v expr st
  | .Block nodes => visitSeq v nodes st
  | .TypedIdentifier => pure (st, [])
  | .Unary expr op => visitUnary v expr op st
  | .If cond body _elseIfs elseBody => visitIf env v cond body elseBody st
  | .For init cond step body => visitFor env v init cond step body st
  | .Break => do
      let ctx ← st.ctxStack.head?
      pure ({ st with propagateBreak := true },
        [Action.SetVariableToNumber (currentBreakFlag st ctx) 1,
         Action.Return])
  | .CommandLiteral command => do
      let _ ← st.ctxStack.head?   -- emit_action needs a current builder
      pure (st, [Action.Direct command])
  | .StructDefinition => pure (st, [])   -- handled in the validator

/-- `CodeGenerator::visit_node`: dispatch on the node kind, then clear
`propagate_return` — the statement `self.propagate_return = false;` at the
end of every call.  The `fuel` parameter only bounds the recursion depth;
claims quantify over it or fix a sufficient concrete amount. -/
def visit_node (env : Env) : Nat → ParserNode → CGState →
    Option (CGState × List Action)
  | 0, _, _ => none
  | fuel + 1, node, st =>
      (visitDispatch env (visit_node env fuel) node st).map
        (fun p => ({ p.1 with propagateReturn := false }, p.2))

/-- The output of `CodeGenerator::compile_src`: the `ready_functions` map
after the bootstrap `_sculkmain` has been inserted. -/
structure CompileOutput where
  ready : List Function
deriving DecidableEq, Repr

/-- `CodeGenerator::compile_src`, from the point where codegen proper
starts: the parser, validator and rebranch pass are external collaborators,
so `ast` is their (already rebranched) output and `env` carries the
signature table and namespace.  After the walk, `_sculkmain` is synthesized:
one `CreateStorage` per non-anonymous ready function (the Rust `HashMap`
iteration order is arbitrary; insertion order is used here) followed by a
call to `<ns>:main`, and is inserted into the ready set. -/
def compile_src (env : Env) (fuel : Nat) (ast : ParserNode) :
    Option CompileOutput := do
  let (st, _) ← visit_node env fuel ast CGState.initial
  let storage := (st.ready.filter (fun f => !f.isAnonymous)).map
    (fun f => Action.CreateStorage
      (ResourceLocation.scoreboard env.ns f.name).str)
  let sculkMain : Function :=
    ⟨"_sculkmain", ResourceLocation.new env.ns "_sculkmain",
      storage ++ [Action.CallFunction (ResourceLocation.new env.ns "main")],
      false⟩
  pure ⟨readyInsert st.ready sculkMain⟩

/-- `CodeGenerator::write_action`: the one-line textual rendering of an
action (no trailing newline; `ExecuteIf`/`ExecuteUnless` compose
recursively). -/
def writeAction : Action → String
  | .CreateStorage name => "scoreboard objectives add " ++ name ++ " dummy"
  | .SetVariableToNumber var val =>
      "scoreboard players set " ++ var.str ++ " " ++ toString val
  | .AddVariables first second =>
      "scoreboard players operation " ++ first.str ++ " += " ++ second.str
  | .SubtractVariables first second =>
      "scoreboard players operation " ++ first.str ++ " -= " ++ second.str
  | .MultiplyVariables first second =>
      "scoreboard players operation " ++ first.str ++ " *= " ++ second.str
  | .DivideVariables first second =>
      "scoreboard players operation " ++ first.str ++ " /= " ++ second.str
  | .ModuloVariables first second =>
      "scoreboard players operation " ++ first.str ++ " %= " ++ second.str
  | .SetVariableToVariable first second =>
      "scoreboard players operation " ++ first.str ++ " = " ++ second.str
  | .CallFunction target => "function " ++ target.str
  | .ExecuteIf condition thenAction =>
      "execute if " ++ condition ++ " run " ++ writeAction thenAction
  | .ExecuteUnless condition thenAction =>
      "execute unless " ++ condition ++ " run " ++ writeAction thenAction
  | .Direct command => command
  | .Return => "return"

/-- The per-function loop body of `CodeGenerator::output_to_dir`: the string
written to `<name>.mcfunction` is built by appending each action's rendering
followed by the separator `"\r\n"` (filesystem side effects are outside the
model; this is the exact content handed to `File::create(..).write`). -/
def fileContent (actions : List Action) : String :=
  actions.foldl (fun out a => out ++ writeAction a ++ "\r\n") ""

/-! ## Temporary allocation through a flush -/

/-- The canonical pool of temporary indices `1..=m`. -/
def tmpIndices (m : Int) : List Int :=
  (List.range m.toNat).map (fun k : Nat => (k : Int) + 1)

lemma tmpIndices_nodup (m : Int) : (tmpIndices m).Nodup :=
  (List.nodup_range m.toNat).map (fun a b hab => by omega)

lemma tmpIndices_mem (m k : Int) : k ∈ tmpIndices m ↔ 1 ≤ k ∧ k ≤ m := by
  simp only [tmpIndices, List.mem_map, List.mem_range]
  constructor
  · rintro ⟨a, ha, rfl⟩; omega
  · intro hk
    exact ⟨(k - 1).toNat, by omega, by omega⟩

lemma optSome_bind {α β : Type} (a : α) (f : α → Option β) :
    ((some a : Option α) >>= f) = f a := rfl

lemma optNone_bind {α β : Type} (f : α → Option β) :
    ((none : Option α) >>= f) = none := rfl

lemma optBind_eq_some {α β : Type} {x : Option α} {f : α → Option β}
    {b : β} : (x >>= f) = some b ↔ ∃ a, x = some a ∧ f a = some b := by
  cases x <;> simp

lemma optPure_eq_some {α : Type} {a b : α} :
    (pure a : Option α) = some b ↔ a = b := by
  simp only [Option.pure_def, Option.some_inj]

/-- The free-list/working-set invariant maintained through a flush: the free
list and the surviving `intermediate_tmps` together hold each index
`1..=max_tmps` exactly once. -/
def TmpInv (fs : FlushState) : Prop :=
  0 ≤ fs.maxTmps ∧ (fs.available ++ fs.intermediates).Nodup ∧
    ∀ k : Int, k ∈ fs.available ++ fs.intermediates ↔
      1 ≤ k ∧ k ≤ fs.maxTmps

lemma TmpInv_congr {a b : FlushState} (hav : a.available = b.available)
    (hm : a.maxTmps = b.maxTmps) (hit : a.intermediates = b.intermediates) :
    TmpInv a ↔ TmpInv b := by
  unfold TmpInv
  rw [hav, hm, hit]

lemma TmpInv.of_perm {fs fs' : FlushState} (h : TmpInv fs)
    (hm : fs'.maxTmps = fs.maxTmps)
    (hp : (fs'.available ++ fs'.intermediates).Perm
      (fs.available ++ fs.intermediates)) : TmpInv fs' := by
  obtain ⟨h0, hnd, hmem⟩ := h
  refine ⟨by rw [hm]; exact h0, hp.nodup_iff.mpr hnd, fun k => ?_⟩
  rw [hp.mem_iff, hmem, hm]

lemma freeTmp_foldl (l : List Int) (fs : FlushState) :
    l.foldl freeTmp fs = { fs with available := l.reverse ++ fs.available } := by
  induction l generalizing fs with
  | nil => rfl
  | cons a t ih =>
      simp only [List.foldl_cons, ih, freeTmp, List.reverse_cons,
        List.append_assoc, List.cons_append, List.nil_append]

/-- `reserve_available_tmp` followed by pushing the index onto the working
set preserves the invariant. -/
lemma TmpInv_reserve {fs : FlushState} {t : Int} {fs1 : FlushState}
    (hres : reserveAvailableTmp fs = (t, fs1)) (hinv : TmpInv fs) :
    TmpInv { fs1 with intermediates := t :: fs1.intermediates } := by
  obtain ⟨h0, hnd, hmem⟩ := hinv
  cases havail : fs.available with
  | cons s rest =>
      simp only [reserveAvailableTmp, havail] at hres
      injection hres with h1 h2
      subst h1
      subst h2
      rw [havail] at hnd hmem
      refine ⟨h0, List.perm_middle.nodup_iff.mpr hnd, fun k => ?_⟩
      exact (List.perm_middle.mem_iff).trans (hmem k)
  | nil =>
      simp only [reserveAvailableTmp, havail] at hres
      injection hres with h1 h2
      subst h1
      subst h2
      rw [havail] at hnd hmem
      simp only [List.nil_append] at hnd hmem
      refine ⟨?_, ?_, fun k => ?_⟩
      · show 0 ≤ fs.maxTmps + 1
        omega
      · show (([] : List Int) ++ (fs.maxTmps + 1) :: fs.intermediates).Nodup
        rw [List.nil_append]
        refine List.Nodup.cons (fun hmem2 => ?_) hnd
        have := (hmem (fs.maxTmps + 1)).1 hmem2
        omega
      · show k ∈ ([] : List Int) ++ (fs.maxTmps + 1) :: fs.intermediates ↔
          1 ≤ k ∧ k ≤ fs.maxTmps + 1
        rw [List.nil_append, List.mem_cons]
        constructor
        · rintro (rfl | hk)
          · omega
          · have := (hmem k).1 hk
            omega
        · intro hk
          by_cases hke : k = fs.maxTmps + 1
          · exact Or.inl hke
          · exact Or.inr ((hmem k).2 (by omega))

/-- Projection form of `TmpInv_reserve`, usable whatever syntactic shape the
reserved state takes. -/
lemma TmpInv_reserve' {fs : FlushState} (hinv : TmpInv fs) {fs' : FlushState}
    (hav : fs'.available = (reserveAvailableTmp fs).2.available)
    (hm : fs'.maxTmps = (reserveAvailableTmp fs).2.maxTmps)
    (hit : fs'.intermediates =
      (reserveAvailableTmp fs).1 :: (reserveAvailableTmp fs).2.intermediates) :
    TmpInv fs' := by
  rcases hres : reserveAvailableTmp fs with ⟨t, fs1⟩
  rw [hres] at hav hm hit
  obtain ⟨h0, hnd, hmem⟩ := TmpInv_reserve hres hinv
  refine ⟨?_, ?_, fun k => ?_⟩
  · rw [hm]; exact h0
  · rw [hav, hit]; exact hnd
  · rw [hav, hit, hm]; exact hmem k

/-- Each instruction processed by `flush` preserves the invariant. -/
lemma TmpInv_flushStep {sb : ResourceLocation} {fs fs' : FlushState}
    {instr : EvaluationInstruction} (h : flushStep sb fs instr = some fs')
    (hinv : TmpInv fs) : TmpInv fs' := by
  cases instr with
  | PushNumber num =>
      rcases hres : reserveAvailableTmp fs with ⟨t, fs1⟩
      simp only [flushStep, hres, flushEmit] at h
      obtain rfl := Option.some_injective _ h
      exact (TmpInv_congr rfl rfl rfl).mp (TmpInv_reserve hres hinv)
  | PushBool b =>
      rcases hres : reserveAvailableTmp fs with ⟨t, fs1⟩
      simp only [flushStep, hres, flushEmit] at h
      obtain rfl := Option.some_injective _ h
      exact (TmpInv_congr rfl rfl rfl).mp (TmpInv_reserve hres hinv)
  | PushVariable name =>
      rcases hres : reserveAvailableTmp fs with ⟨t, fs1⟩
      simp only [flushStep, hres, flushEmit] at h
      obtain rfl := Option.some_injective _ h
      exact (TmpInv_congr rfl rfl rfl).mp (TmpInv_reserve hres hinv)
  | Operation op =>
      cases hit : fs.intermediates with
      | nil => simp [flushStep, hit] at h
      | cons tb t =>
        cases t with
        | nil => simp [flushStep, hit] at h
        | cons ta rest =>
            cases hacts : operationActions op (getTmp sb ta) (getTmp sb tb) with
            | none => simp [flushStep, hit, hacts] at h
            | some acts =>
                simp only [flushStep, hit, hacts, flushEmitAll_eq, freeTmp,
                  optSome_bind, optPure_eq_some] at h
                subst h
                refine TmpInv.of_perm hinv rfl ?_
                show List.Perm ((tb :: fs.available) ++ ta :: rest) _
                rw [hit]
                exact List.perm_middle.symm
  | CallFunction func args =>
      simp only [flushStep] at h
      by_cases hlen : args.length ≤ fs.intermediates.length
      · rw [if_pos hlen] at h
        obtain rfl := Option.some_injective _ h
        have hbig : TmpInv
            (List.foldl freeTmp
              (flushEmit
                (flushEmitAll
                  { fs with intermediates :=
                      fs.intermediates.drop args.length }
                  ((args.zip (fs.intermediates.take args.length).reverse).map
                    (fun p => Action.SetVariableToVariable
                      ⟨func.with_separator '.', p.1⟩ (getTmp sb p.2))))
                (Action.CallFunction func))
              (fs.intermediates.take args.length).reverse) := by
          refine TmpInv.of_perm hinv ?_ ?_
          · rw [freeTmp_foldl]
            simp only [flushEmitAll_eq, flushEmit]
          · rw [freeTmp_foldl]
            simp only [flushEmit, flushEmitAll_eq, List.reverse_reverse]
            have hstep := (@List.perm_append_comm Int
              (fs.intermediates.take args.length)
              fs.available).append_right
              (fs.intermediates.drop args.length)
            have heq : (fs.available ++ fs.intermediates.take args.length)
                ++ fs.intermediates.drop args.length
                = fs.available ++ fs.intermediates := by
              rw [List.append_assoc, List.take_append_drop]
            exact heq ▸ hstep
        exact TmpInv_reserve' hbig rfl rfl rfl
      · rw [if_neg hlen] at h
        exact absurd h (by simp)

/-- The instruction loop of `flush` preserves the invariant. -/
lemma TmpInv_flushGo {sb : ResourceLocation}
    {instrs : List EvaluationInstruction} {fs fs' : FlushState}
    (h : flushGo sb instrs fs = some fs') (hinv : TmpInv fs) : TmpInv fs' := by
  induction instrs generalizing fs with
  | nil =>
      simp only [flushGo, Option.some_inj] at h
      exact h ▸ hinv
  | cons i rest ih =>
      simp only [flushGo, optBind_eq_some] at h
      obtain ⟨fsm, h1, h2⟩ := h
      exact ih h2 (TmpInv_flushStep h1 hinv)

lemma flush_final_core {fs0 : FlushState} (hinv : TmpInv fs0) {target : Int}
    (htgt : fs0.intermediates.getLast? = some target) :
    (fs0.intermediates ++ fs0.available).Perm (tmpIndices fs0.maxTmps) ∧
      target ∈ fs0.intermediates ++ fs0.available := by
  obtain ⟨h0, hnd, hmem⟩ := hinv
  have hp : (fs0.intermediates ++ fs0.available).Perm
      (fs0.available ++ fs0.intermediates) := List.perm_append_comm
  constructor
  · refine (List.perm_ext_iff_of_nodup (hp.nodup_iff.mpr hnd)
      (tmpIndices_nodup _)).mpr fun k => ?_
    rw [hp.mem_iff, hmem, tmpIndices_mem]
  · exact List.mem_append_left _ (List.mem_of_getLast?_eq_some htgt)
lemma flush_tail {fs0 Y : FlushState} (hinv : TmpInv fs0) {target : Int}
    (htgt : fs0.intermediates.getLast? = some target)
    (hav : Y.available = fs0.available) (hm : Y.maxTmps = fs0.maxTmps)
    (hit : Y.intermediates = fs0.intermediates) :
    (Y.intermediates.reverse.foldl freeTmp Y).available.Perm
      (tmpIndices (Y.intermediates.reverse.foldl freeTmp Y).maxTmps) ∧
      target ∈ (Y.intermediates.reverse.foldl freeTmp Y).available := by
  rw [freeTmp_foldl]
  simp only [List.reverse_reverse, hav, hm, hit]
  exact flush_final_core hinv htgt

/-- After a complete flush of a fresh stack, the final free list is exactly
the pool `1..=max_tmps` — the returned index included — and in particular
the returned temporary itself sits on the free list. -/
theorem flush_free_list {st : EvaluationStack} {fr : FlushResult}
    (hav : st.available_tmps = []) (hmax : st.max_tmps = 0)
    (h : st.flush = some fr) :
    fr.available.Perm (tmpIndices fr.maxTmps) ∧ fr.result ∈ fr.available := by
  unfold EvaluationStack.flush at h
  simp only [optBind_eq_some, optPure_eq_some] at h
  obtain ⟨fs0, hgo, target, htgt, hfr⟩ := h
  have hinv0 : TmpInv ⟨[], st.available_tmps, st.max_tmps, []⟩ := by
    rw [hav, hmax]
    refine ⟨le_refl 0, by simp, fun k => ?_⟩
    simp only [List.append_nil, List.not_mem_nil, false_iff]
    omega
  have hinv := TmpInv_flushGo hgo hinv0
  subst hfr
  split
  next resultTmp other heq =>
    split
    next hne => exact flush_tail hinv htgt rfl rfl rfl
    next hne => exact flush_tail hinv htgt rfl rfl rfl
  next hno => exact flush_tail hinv htgt rfl rfl rfl

/-! ## Claim C1 -/

/-- The flush of the expression `1 + 2` on the scoreboard `p.main`. -/
def c1Stack : EvaluationStack :=
  ⟨[.PushNumber 1, .PushNumber 2, .Operation .Add], [], 0,
    ResourceLocation.scoreboard "p" "main"⟩

/-- What that flush produces: result temporary 1, and the free list `[1, 2]`
holding the returned index too. -/
def c1Result : FlushResult :=
  ⟨1,
    [.SetVariableToNumber (getTmp (ResourceLocation.scoreboard "p" "main") 1) 1,
     .SetVariableToNumber (getTmp (ResourceLocation.scoreboard "p" "main") 2) 2,
     .AddVariables (getTmp (ResourceLocation.scoreboard "p" "main") 1)
       (getTmp (ResourceLocation.scoreboard "p" "main") 2)],
    [1, 2], 2⟩

/-- C1, counterexample: flushing `1 + 2` returns temporary index 1, yet the
final free list is `[1, 2]`: it contains the returned index, refuting "that
index is still live (not on the free list): the free list then contains
exactly the indices `1..=max_tmps` minus the single returned index". -/
theorem C1_counterexample :
    c1Stack.flush = some c1Result ∧ c1Result.result ∈ c1Result.available :=
  ⟨by decide, by decide⟩

/-- C1 (amended): after a complete `EvaluationStack::flush` of a fresh
stack, exactly one temporary index is returned, but that index has been
freed as well: the free list contains exactly the indices `1..=max_tmps`
including the returned one, and in particular the returned index is on the
free list (`flush` frees every surviving intermediate, the target
included). -/
theorem C1_theorem {st : EvaluationStack} {fr : FlushResult}
    (hav : st.available_tmps = []) (hmax : st.max_tmps = 0)
    (h : st.flush = some fr) :
    fr.available.Perm (tmpIndices fr.maxTmps) ∧ fr.result ∈ fr.available :=
  flush_free_list hav hmax h

/-- C1 witness: the amended theorem applied to the flush of `1 + 2`. -/
theorem C1_witness :
    ([1, 2] : List Int).Perm (tmpIndices 2) ∧ (1 : Int) ∈ ([1, 2] : List Int) := by
  have h1 : c1Stack.available_tmps = [] := rfl
  have h2 : c1Stack.max_tmps = 0 := rfl
  have h : c1Stack.flush = some c1Result := by decide
  exact C1_theorem h1 h2 h

/-! ## Claim C4 -/

lemma optPure_bind {α β : Type} (a : α) (f : α → Option β) :
    ((pure a : Option α) >>= f) = f a := rfl

/-- The scoreboard `p.main`, shared by the concrete examples below. -/
def sbPM : ResourceLocation := ResourceLocation.scoreboard "p" "main"

/-- The conditional-write table exactly as claim C4 states it (a second
definition following the claim's words, to be compared against the
source-derived emission in `flushStep`): one conditional write of 1 into
the left temporary with range `1..` for `>`, `..-1` for `<`, `0..` for
`>=`, `..0` for `<=`, `0` for `==`, and `ExecuteUnless` with `0` for `!=`;
no comparison action otherwise. -/
def c4Guard (op : Operation) (a : ScoreboardEntry) : Option Action :=
  match op with
  | .GreaterThan =>
      some (.ExecuteIf ("score " ++ a.str ++ " matches 1..")
        (.SetVariableToNumber a 1))
  | .LessThan =>
      some (.ExecuteIf ("score " ++ a.str ++ " matches ..-1")
        (.SetVariableToNumber a 1))
  | .GreaterThanOrEquals =>
      some (.ExecuteIf ("score " ++ a.str ++ " matches 0..")
        (.SetVariableToNumber a 1))
  | .LessThanOrEquals =>
      some (.ExecuteIf ("score " ++ a.str ++ " matches ..0")
        (.SetVariableToNumber a 1))
  | .CheckEquals =>
      some (.ExecuteIf ("score " ++ a.str ++ " matches 0")
        (.SetVariableToNumber a 1))
  | .NotEquals =>
      some (.ExecuteUnless ("score " ++ a.str ++ " matches 0")
        (.SetVariableToNumber a 1))
  | _ => none

/-- C4: for every comparison `Operation` instruction consumed during a
flush, with operand temporaries `ta` (left, kept, peeked) and `tb` (right,
popped), the evaluator emits exactly `SubtractVariables{TMP<a>, TMP<b>}`
followed by the one conditional write `c4Guard` assigns to the operator;
`tb` is then freed onto the free list and `ta` stays on the working
stack. -/
theorem C4_theorem {sb : ResourceLocation} {fs fs' : FlushState}
    {op : Operation} {tb ta : Int} {rest : List Int} {g : Action}
    (hit : fs.intermediates = tb :: ta :: rest)
    (hg : c4Guard op (getTmp sb ta) = some g)
    (h : flushStep sb fs (.Operation op) = some fs') :
    fs'.actions = fs.actions ++
      [Action.SubtractVariables (getTmp sb ta) (getTmp sb tb), g] ∧
    fs'.intermediates = ta :: rest ∧
    fs'.available = tb :: fs.available ∧
    fs'.maxTmps = fs.maxTmps := by
  cases op <;> simp only [c4Guard, Option.some_inj] at hg
  all_goals
    first
    | exact absurd hg (by simp)
    | · subst hg
        simp only [flushStep, hit, operationActions, comparisonSetAction,
          flushEmitAll_eq, freeTmp, optSome_bind, optPure_bind,
          optPure_eq_some, Option.some_inj] at h
        subst h
        exact ⟨rfl, rfl, rfl, rfl⟩

/-- The flush state C4's witness starts from: temporaries 1 and 2 on the
working stack, 2 on top. -/
def c4State : FlushState := ⟨[], [], 2, [2, 1]⟩

/-- What consuming `==` from `c4State` produces. -/
def c4Out : FlushState :=
  ⟨[Action.SubtractVariables (getTmp sbPM 1) (getTmp sbPM 2),
    Action.ExecuteIf "score TMP1 p.main matches 0"
      (.SetVariableToNumber (getTmp sbPM 1) 1)],
   [2], 2, [1]⟩

/-- C4 witness: the theorem applied to `==` on `TMP1`/`TMP2`. -/
theorem C4_witness :
    c4Out.actions = c4State.actions ++
      [Action.SubtractVariables (getTmp sbPM 1) (getTmp sbPM 2),
       Action.ExecuteIf "score TMP1 p.main matches 0"
         (.SetVariableToNumber (getTmp sbPM 1) 1)] ∧
    c4Out.intermediates = 1 :: ([] : List Int) ∧
    c4Out.available = 2 :: c4State.available ∧
    c4Out.maxTmps = c4State.maxTmps := by
  have h1 : c4State.intermediates = (2 : Int) :: (1 : Int) :: ([] : List Int) :=
    rfl
  have h2 : c4Guard Operation.CheckEquals (getTmp sbPM 1) =
      some (Action.ExecuteIf "score TMP1 p.main matches 0"
        (.SetVariableToNumber (getTmp sbPM 1) 1)) := by decide
  have h3 : flushStep sbPM c4State (.Operation .CheckEquals) = some c4Out := by
    decide
  exact C4_theorem h1 h2 h3

/-! ## Claim C9 -/

/-- `propagate_return` is cleared at the end of every `visit_node` call:
the one latch the trailing assignment in `visit_node` resets. -/
lemma visitNode_propagateReturn (env : Env) (fuel : Nat) (node : ParserNode)
    (st st' : CGState) (d : List Action)
    (h : visit_node env fuel node st = some (st', d)) :
    st'.propagateReturn = false := by
  cases fuel with
  | zero => exact absurd h (by simp [visit_node])
  | succ n =>
      simp only [visit_node, Option.map_eq_some'] at h
      obtain ⟨⟨st0, d0⟩, _, heq⟩ := h
      have := congrArg Prod.fst heq
      simp only at this
      rw [← this]

/-- The state in which C9's counterexample runs `visit_node` on `break`:
inside function `main` at loop depth 1. -/
def c9State : CGState :=
  ⟨[⟨"main", ResourceLocation.scoreboard "p" "main", false, 0⟩],
    [], [], 0, 0, 1, false, false⟩

/-- C9, counterexample: visiting a `Break` node latches `propagate_break`
and `visit_node` does not clear it — after the call the latch is still
true, refuting "both transient latches ... are cleared at the end of every
call to visit_node". -/
theorem C9_counterexample :
    visit_node ⟨"p", []⟩ 1 ParserNode.Break c9State =
      some ({ c9State with propagateBreak := true },
        [Action.SetVariableToNumber
          ⟨ResourceLocation.scoreboard "p" "main", "BREAKFLAG1"⟩ 1,
         Action.Return]) ∧
    ({ c9State with propagateBreak := true } : CGState).propagateBreak
      = true :=
  ⟨rfl, rfl⟩

/-- C9 (amended): at the end of every call to `visit_node` the
`propagate_return` latch is cleared (so its scope is bounded by the
enclosing block), but `propagate_break` is not cleared there — it is only
cleared explicitly at loop exit inside `visit_for`. -/
theorem C9_theorem (env : Env) (fuel : Nat) (node : ParserNode)
    (st st' : CGState) (d : List Action)
    (h : visit_node env fuel node st = some (st', d)) :
    st'.propagateReturn = false :=
  visitNode_propagateReturn env fuel node st st' d h

/-- C9 witness: the cleared latch after visiting `break` concretely. -/
theorem C9_witness :
    ({ c9State with propagateBreak := true } : CGState).propagateReturn
      = false :=
  C9_theorem ⟨"p", []⟩ 1 ParserNode.Break c9State
    ({ c9State with propagateBreak := true })
    [Action.SetVariableToNumber
      ⟨ResourceLocation.scoreboard "p" "main", "BREAKFLAG1"⟩ 1,
     Action.Return] rfl

/-! ## Claim C10 -/

/-- C10: `output_to_dir` renders a function by appending, for every action,
its text followed by the separator `"\r\n"` — including after the last
action, so the content of every non-empty `.mcfunction` file is the content
of its prefix followed by the last action's text and the terminating
`"\r\n"` bytes. -/
theorem C10_theorem (l : List Action) (a : Action) :
    fileContent (l ++ [a]) = (fileContent l ++ writeAction a) ++ "\r\n" := by
  unfold fileContent
  rw [List.foldl_append]
  rfl

/-! ## Claims C5, C3, C2 — concrete lowerings -/

/-- The scoreboard `p.f`. -/
def sbPF : ResourceLocation := ResourceLocation.scoreboard "p" "f"

/-- Signatures for `fn main()` alone (`main` returns `none`). -/
def envMainOnly : Env := ⟨"p", [("main", ⟨[], Ty.none⟩)]⟩

/-- `fn main() { let x = 1 + 2; }`, rebranched AST. -/
def progC5 : ParserNode :=
  .Program [.FunctionDeclaration "main" []
    (.Block [.VariableDeclaration "x"
      (.Operation (.NumberLiteral 1) (.NumberLiteral 2) .Add)])]

/-- The lowering of `main` in scenario C5. -/
def c5Main : Function :=
  ⟨"main", sbPM,
    [.SetVariableToNumber (getTmp sbPM 1) 1,
     .SetVariableToNumber (getTmp sbPM 2) 2,
     .AddVariables (getTmp sbPM 1) (getTmp sbPM 2),
     .SetVariableToVariable ⟨sbPM, "x"⟩ (getTmp sbPM 1)],
    false⟩

/-- The synthesized `_sculkmain` for a program whose only source function is
`main`. -/
def sculkMainOnly : Function :=
  ⟨"_sculkmain", ResourceLocation.new "p" "_sculkmain",
    [.CreateStorage "p.main",
     .CallFunction (ResourceLocation.new "p" "main")],
    false⟩

/-- C5: compiling `fn main() { let x = 1 + 2; }` under namespace `p` yields
`p:main` containing exactly, in order, `set TMP1 1`, `set TMP2 2`,
`TMP1 += TMP2`, `x = TMP1`, and `_sculkmain` containing the `CreateStorage`
for objective `p.main` followed by the call to `p:main`. -/
theorem C5_theorem :
    compile_src envMainOnly 20 progC5 = some ⟨[c5Main, sculkMainOnly]⟩ := by
  decide

/-- Signatures for `fn f(x)` (returning an int) and `fn main()`. -/
def envC3 : Env := ⟨"p", [("f", ⟨["x"], Ty.int⟩), ("main", ⟨[], Ty.none⟩)]⟩

/-- `fn f(x) { return x + 1; } fn main() { let y = f(5); }`. -/
def progC3 : ParserNode :=
  .Program
    [.FunctionDeclaration "f" [.TypedIdentifier]
       (.Block [.Return (some
         (.Operation (.Identifier "x") (.NumberLiteral 1) .Add))]),
     .FunctionDeclaration "main" []
       (.Block [.VariableDeclaration "y"
         (.FunctionCall "f" [.NumberLiteral 5])])]

/-- The lowering of `f` in scenario C3: the `RETFLAG := 0` prelude, the
body `x + 1` into `TMP1`, the copy into `RET`, `RETFLAG := 1`, `return`. -/
def c3F : Function :=
  ⟨"f", sbPF,
    [.SetVariableToNumber ⟨sbPF, "RETFLAG"⟩ 0,
     .SetVariableToVariable (getTmp sbPF 1) ⟨sbPF, "x"⟩,
     .SetVariableToNumber (getTmp sbPF 2) 1,
     .AddVariables (getTmp sbPF 1) (getTmp sbPF 2),
     .SetVariableToVariable ⟨sbPF, "RET"⟩ (getTmp sbPF 1),
     .SetVariableToNumber ⟨sbPF, "RETFLAG"⟩ 1,
     .Return],
    false⟩

/-- The lowering of `main` in scenario C3: `TMP1 := 5`; parameter copy
`x p.f = TMP1`; `function p:f`; then — the argument temporary having been
freed — `reserve_available_tmp` hands index 1 back out, so the return value
is copied into `TMP1` again and `TMP1` into `y`.  No `TMP2` appears. -/
def c3Main : Function :=
  ⟨"main", sbPM,
    [.SetVariableToNumber (getTmp sbPM 1) 5,
     .SetVariableToVariable ⟨sbPF, "x"⟩ (getTmp sbPM 1),
     .CallFunction (ResourceLocation.new "p" "f"),
     .SetVariableToVariable (getTmp sbPM 1) ⟨sbPF, "RET"⟩,
     .SetVariableToVariable ⟨sbPM, "y"⟩ (getTmp sbPM 1)],
    false⟩

/-- The synthesized `_sculkmain` for scenario C3. -/
def c3Sculk : Function :=
  ⟨"_sculkmain", ResourceLocation.new "p" "_sculkmain",
    [.CreateStorage "p.f",
     .CreateStorage "p.main",
     .CallFunction (ResourceLocation.new "p" "main")],
    false⟩

/-- C3, counterexample: in the compiled `main` of
`fn f(x) { return x + 1; } fn main() { let y = f(5); }` no action copies
`RET p.f` into `TMP2` (nor does `TMP2` appear at all): the argument
temporary is freed before the return-value temporary is reserved, so the
reserve hands back index 1, refuting "reserves a second, distinct temporary
TMP2". -/
theorem C3_counterexample :
    compile_src envC3 30 progC3 = some ⟨[c3F, c3Main, c3Sculk]⟩ ∧
    Action.SetVariableToVariable (getTmp sbPM 2) ⟨sbPF, "RET"⟩
      ∉ c3Main.actions := by
  exact ⟨by decide, by decide⟩

/-- C3 (amended): lowering `main` reserves `TMP1` and sets it to 5, copies
`TMP1` into parameter slot `x` of f's scoreboard, emits the call to `f`,
then — the argument temporary having been freed first — reserves again and
obtains the same index 1, copies `RET` of f's scoreboard into `TMP1`, and
finally copies `TMP1` into `y`; no distinct second temporary appears. -/
theorem C3_theorem :
    compile_src envC3 30 progC3 = some ⟨[c3F, c3Main, c3Sculk]⟩ := by
  decide

/-- `fn main() { if (a == b) { return; } c = 1; }`, rebranched AST. -/
def progC2 : ParserNode :=
  .Program [.FunctionDeclaration "main" []
    (.Block
      [.If (.Operation (.Identifier "a") (.Identifier "b") .CheckEquals)
         (.Block [.Return Option.none]) [] Option.none,
       .VariableAssignment "c" (.NumberLiteral 1)])]

/-- The anonymous child `main/0` of scenario C2: the return sequence. -/
def c2Child : Function :=
  ⟨"main/0", sbPM,
    [.SetVariableToNumber ⟨sbPM, "RETFLAG"⟩ 1,
     .Return],
    true⟩

/-- The `main` the code actually produces for scenario C2: the condition
via subtract plus conditional set on `matches 0`, the guarded call to
`p:main/0`, and then — with no jump-accounting guard in between — the
assignment to `c`. -/
def c2Main : Function :=
  ⟨"main", sbPM,
    [.SetVariableToVariable (getTmp sbPM 1) ⟨sbPM, "a"⟩,
     .SetVariableToVariable (getTmp sbPM 2) ⟨sbPM, "b"⟩,
     .SubtractVariables (getTmp sbPM 1) (getTmp sbPM 2),
     .ExecuteIf "score TMP1 p.main matches 0"
       (.SetVariableToNumber (getTmp sbPM 1) 1),
     .ExecuteIf "score TMP1 p.main matches 1"
       (.CallFunction (ResourceLocation.new "p" "main/0")),
     .SetVariableToNumber (getTmp sbPM 1) 1,
     .SetVariableToVariable ⟨sbPM, "c"⟩ (getTmp sbPM 1)],
    false⟩

/-- C2: what the code emits at the claim's program.  Everything matches the
claim except the jump-accounting guard: `visit_node` clears
`propagate_return` at the end of the `Return` node's own visit, before
`visit_if` runs `account_for_jumps`, so the guard
`execute if score RETFLAG p.main matches 1 run return` is never emitted —
the second conjunct exhibits its absence from `main`. -/
theorem C2_theorem :
    compile_src envMainOnly 30 progC2 = some ⟨[c2Child, c2Main, sculkMainOnly]⟩ ∧
    Action.ExecuteIf "score RETFLAG p.main matches 1" Action.Return
      ∉ c2Main.actions := by
  exact ⟨by decide, by decide⟩

/-! ## Builder-stack shape and ready-set invariants -/

/-- What one traversal step may do to an unfinished builder: bump its
anonymous-child counter, nothing else — name, scoreboard and anonymity are
stable. -/
def ctxShape (c c' : FuncCtx) : Prop :=
  c'.name = c.name ∧ c'.scoreboard = c.scoreboard ∧
    c'.isAnonymous = c.isAnonymous

lemma ctxShape_refl {c : FuncCtx} : ctxShape c c := ⟨Eq.refl _, Eq.refl _, Eq.refl _⟩

lemma ctxShape.comp {a b c : FuncCtx} (h1 : ctxShape a b)
    (h2 : ctxShape b c) : ctxShape a c :=
  ⟨h2.1.trans h1.1, h2.2.1.trans h1.2.1, h2.2.2.trans h1.2.2⟩

lemma stackShape_refl (l : List FuncCtx) : List.Forall₂ ctxShape l l :=
  List.forall₂_same.mpr fun _ _ => ctxShape_refl

lemma stackShape_trans : ∀ {a b c : List FuncCtx},
    List.Forall₂ ctxShape a b → List.Forall₂ ctxShape b c →
    List.Forall₂ ctxShape a c
  | _, _, _, List.Forall₂.nil, List.Forall₂.nil => List.Forall₂.nil
  | _, _, _, List.Forall₂.cons h1 t1, List.Forall₂.cons h2 t2 =>
      List.Forall₂.cons (h1.comp h2) (stackShape_trans t1 t2)

/-- The invariant over `ready_functions` that the bootstrap assembly needs:
every non-anonymous ready function's scoreboard is the standard one derived
from its name, and names are map keys (no duplicates). -/
def ReadyInvL (ns : String) (l : List Function) : Prop :=
  (∀ f ∈ l, f.isAnonymous = false →
    f.scoreboard = ResourceLocation.scoreboard ns f.name) ∧
  (l.map (fun f => f.name)).Nodup

/-- What every successful visit step guarantees about the traversal state:
the builder stack keeps its shape and the ready-set invariant is
preserved. -/
def Preserves (ns : String) (st st' : CGState) : Prop :=
  List.Forall₂ ctxShape st.ctxStack st'.ctxStack ∧
    (ReadyInvL ns st.ready → ReadyInvL ns st'.ready)

lemma Preserves.of_eq {ns : String} {st : CGState} (st' : CGState)
    (hc : st'.ctxStack = st.ctxStack) (hr : st'.ready = st.ready) :
    Preserves ns st st' := by
  rw [Preserves, hc, hr]
  exact ⟨stackShape_refl _, id⟩

lemma Preserves.chain {ns : String} {a b c : CGState}
    (h1 : Preserves ns a b) (h2 : Preserves ns b c) : Preserves ns a c :=
  ⟨stackShape_trans h1.1 h2.1, fun h => h2.2 (h1.2 h)⟩

lemma readyInsert_self_mem : ∀ (l : List Function) (f : Function),
    f ∈ readyInsert l f
  | [], f => List.mem_singleton.mpr rfl
  | g :: gs, f => by
      by_cases h : g.name = f.name
      · simp [readyInsert, h]
      · simp only [readyInsert, if_neg h, List.mem_cons]
        exact Or.inr (readyInsert_self_mem gs f)

lemma readyInsert_mem : ∀ {l : List Function} {f x : Function},
    x ∈ readyInsert l f → x = f ∨ x ∈ l := by
  intro l
  induction l with
  | nil => intro f x h; simp [readyInsert] at h; exact Or.inl h
  | cons g gs ih =>
      intro f x h
      by_cases hn : g.name = f.name
      · simp only [readyInsert, if_pos hn, List.mem_cons] at h
        rcases h with rfl | h
        · exact Or.inl rfl
        · exact Or.inr (List.mem_cons_of_mem _ h)
      · simp only [readyInsert, if_neg hn, List.mem_cons] at h
        rcases h with rfl | h
        · exact Or.inr (List.mem_cons_self _ _)
        · rcases ih h with h | h
          · exact Or.inl h
          · exact Or.inr (List.mem_cons_of_mem _ h)

lemma readyInsert_name_mem : ∀ {l : List Function} {f : Function}
    {n : String}, n ∈ (readyInsert l f).map (fun g => g.name) →
    n ∈ l.map (fun g => g.name) ∨ n = f.name := by
  intro l f n h
  simp only [List.mem_map] at h ⊢
  obtain ⟨x, hx, rfl⟩ := h
  rcases readyInsert_mem hx with rfl | hx
  · exact Or.inr rfl
  · exact Or.inl ⟨x, hx, rfl⟩

lemma readyInsert_names_nodup : ∀ {l : List Function} {f : Function},
    ((l.map (fun g => g.name)).Nodup) →
    ((readyInsert l f).map (fun g => g.name)).Nodup := by
  intro l
  induction l with
  | nil => intro f _; simp [readyInsert]
  | cons g gs ih =>
      intro f h
      simp only [List.map_cons, List.nodup_cons] at h
      by_cases hn : g.name = f.name
      · simp only [readyInsert, if_pos hn, List.map_cons, List.nodup_cons]
        exact ⟨hn ▸ h.1, h.2⟩
      · simp only [readyInsert, if_neg hn, List.map_cons, List.nodup_cons]
        refine ⟨fun hmem => ?_, ih h.2⟩
        rcases readyInsert_name_mem hmem with hmem | hmem
        · exact h.1 hmem
        · exact hn hmem

/-- Inserting a function that satisfies the scoreboard condition preserves
the ready-set invariant. -/
lemma ReadyInvL_insert {ns : String} {l : List Function} {f : Function}
    (h : ReadyInvL ns l)
    (hf : f.isAnonymous = false →
      f.scoreboard = ResourceLocation.scoreboard ns f.name) :
    ReadyInvL ns (readyInsert l f) := by
  refine ⟨fun g hg hga => ?_, readyInsert_names_nodup h.2⟩
  rcases readyInsert_mem hg with rfl | hg
  · exact hf hga
  · exact h.1 g hg hga

lemma pushEvalInstr_fields {st st' : CGState}
    {instr : EvaluationInstruction} (h : pushEvalInstr st instr = some st') :
    st'.ctxStack = st.ctxStack ∧ st'.ready = st.ready := by
  cases hes : st.evalStacks with
  | nil => rw [pushEvalInstr, hes] at h; exact absurd h (by simp)
  | cons es rest =>
      rw [pushEvalInstr, hes] at h
      obtain rfl := Option.some_injective _ h
      exact ⟨rfl, rfl⟩

lemma endCurrentEvaluation_fields {st st' : CGState} {r : Int}
    {acts : List Action}
    (h : endCurrentEvaluation st = some (r, acts, st')) :
    st'.ctxStack = st.ctxStack ∧ st'.ready = st.ready := by
  cases hes : st.evalStacks with
  | nil => rw [endCurrentEvaluation, hes] at h; exact absurd h (by simp)
  | cons es rest =>
      rw [endCurrentEvaluation, hes] at h
      simp only [optBind_eq_some, optPure_eq_some] at h
      obtain ⟨fr, _, heq⟩ := h
      have h3 := congrArg (fun p => p.2.2) heq
      simp only at h3
      rw [← h3]
      exact ⟨rfl, rfl⟩

lemma popCtx_fields {st st' : CGState} {c : FuncCtx}
    (h : popCtx st = some (c, st')) :
    st.ctxStack = c :: st'.ctxStack ∧ st'.ready = st.ready := by
  cases hcs : st.ctxStack with
  | nil => rw [popCtx, hcs] at h; exact absurd h (by simp)
  | cons c0 rest =>
      rw [popCtx, hcs] at h
      simp only [Option.some_inj] at h
      have h1 := congrArg Prod.fst h
      have h2 := congrArg (fun p => p.2) h
      simp only at h1 h2
      rw [← h2, ← h1]
      exact ⟨rfl, rfl⟩

lemma makeAnonymousChild_shape (c : FuncCtx) :
    ctxShape c c.makeAnonymousChild.2 := ⟨Eq.refl _, Eq.refl _, Eq.refl _⟩

lemma makeAnonymousChild_child (c : FuncCtx) :
    c.makeAnonymousChild.1.scoreboard = c.scoreboard ∧
    c.makeAnonymousChild.1.isAnonymous = true := ⟨Eq.refl _, Eq.refl _⟩

/-- A visitor that preserves the builder-stack shape and the ready-set
invariant on every success. -/
def VisitOK (ns : String) (v : Visitor) : Prop :=
  ∀ node st st' d, v node st = some (st', d) → Preserves ns st st'

lemma visitSeq_ok {ns : String} {v : Visitor} (hv : VisitOK ns v) :
    ∀ {l : List ParserNode} {st st' : CGState} {d : List Action},
      visitSeq v l st = some (st', d) → Preserves ns st st' := by
  intro l
  induction l with
  | nil =>
      intro st st' d h
      simp only [visitSeq, Option.pure_def, Option.some_inj] at h
      have h1 := congrArg Prod.fst h
      simp only at h1
      exact Preserves.of_eq _ (by rw [← h1]) (by rw [← h1])
  | cons n rest ih =>
      intro st st' d h
      simp only [visitSeq, optBind_eq_some, optPure_eq_some] at h
      obtain ⟨⟨st1, d1⟩, h1, ⟨⟨st2, d2⟩, h2, heq⟩⟩ := h
      have hst := congrArg Prod.fst heq
      simp only at hst
      rw [← hst]
      exact (hv n st st1 d1 h1).chain (ih h2)

lemma visitBinaryOperation_ok {ns : String} {v : Visitor}
    {lhs rhs : ParserNode} {op : Operation} {st st' : CGState}
    {d : List Action} (hv : VisitOK ns v)
    (h : visitBinaryOperation v lhs rhs op st = some (st', d)) :
    Preserves ns st st' := by
  simp only [visitBinaryOperation, optBind_eq_some, optPure_eq_some] at h
  obtain ⟨⟨st1, d1⟩, h1, ⟨⟨st2, d2⟩, h2, ⟨st3, h3, heq⟩⟩⟩ := h
  have hst := congrArg Prod.fst heq
  simp only at hst
  have p1 : Preserves ns st st1 :=
    (Preserves.of_eq { st with binOpDepth := st.binOpDepth + 1 }
      rfl rfl).chain (hv _ _ _ _ h1)
  have p3 := pushEvalInstr_fields h3
  rw [← hst]
  exact ((p1.chain (hv _ _ _ _ h2)).chain
    (Preserves.of_eq _ p3.1 p3.2)).chain (Preserves.of_eq _ rfl rfl)

lemma visitOpEquals_ok {ns : String} {v : Visitor} {name : String}
    {expr : ParserNode} {op : Operation} {st st' : CGState}
    {d : List Action} (hv : VisitOK ns v)
    (h : visitOpEquals v name expr op st = some (st', d)) :
    Preserves ns st st' := by
  simp only [visitOpEquals, optBind_eq_some] at h
  obtain ⟨ctx, hctx, ⟨st1, d1⟩, h1, ⟨⟨r, fA, st2⟩, h2, ctx2, hctx2,
    hrest⟩⟩ := h
  have p1 : Preserves ns st st1 :=
    (Preserves.of_eq (beginEvaluation ctx.scoreboard st) rfl rfl).chain
      (hv _ _ _ _ h1)
  have p2 := endCurrentEvaluation_fields h2
  cases op <;>
    simp only [optSome_bind, optNone_bind, optPure_eq_some] at hrest
  all_goals
    first
    | exact Option.noConfusion hrest
    | · have hst := congrArg Prod.fst hrest
        simp only at hst
        rw [← hst]
        exact p1.chain (Preserves.of_eq _ p2.1 p2.2)

lemma visitVariableAssignment_ok {ns : String} {v : Visitor} {name : String}
    {expr : ParserNode} {st st' : CGState} {d : List Action}
    (hv : VisitOK ns v)
    (h : visitVariableAssignment v name expr st = some (st', d)) :
    Preserves ns st st' := by
  simp only [visitVariableAssignment, optBind_eq_some, optPure_eq_some] at h
  obtain ⟨ctx, hctx, ⟨st1, d1⟩, h1, ⟨⟨r, flushActs, st2⟩, h2,
    ⟨ctx2, hctx2, heq⟩⟩⟩ := h
  have hst := congrArg Prod.fst heq
  simp only at hst
  have p1 : Preserves ns st st1 :=
    (Preserves.of_eq (beginEvaluation ctx.scoreboard st) rfl rfl).chain
      (hv _ _ _ _ h1)
  have p2 := endCurrentEvaluation_fields h2
  rw [← hst]
  exact p1.chain (Preserves.of_eq _ p2.1 p2.2)

lemma visitFunctionCall_ok {ns : String} {env : Env} {v : Visitor}
    {name : String} {args : List ParserNode} {st st' : CGState}
    {d : List Action} (hv : VisitOK ns v)
    (h : visitFunctionCall env v name args st = some (st', d)) :
    Preserves ns st st' := by
  simp only [visitFunctionCall] at h
  split at h
  · simp only [optBind_eq_some, optPure_eq_some] at h
    obtain ⟨ctx, hctx, st0, hst0, ⟨st1, dArgs⟩, h1, sig, hsig, st2, h2,
      ⟨r, fA, st3⟩, h3, heq⟩ := h
    have hst := congrArg Prod.fst heq
    simp only at hst
    have p0 : Preserves ns st st0 := by
      rw [← hst0]
      exact Preserves.of_eq _ rfl rfl
    have p2 := pushEvalInstr_fields h2
    have p3 := endCurrentEvaluation_fields h3
    rw [← hst]
    exact ((p0.chain (visitSeq_ok hv h1)).chain
      (Preserves.of_eq _ p2.1 p2.2)).chain (Preserves.of_eq _ p3.1 p3.2)
  · simp only [optPure_bind, optBind_eq_some, optPure_eq_some] at h
    obtain ⟨⟨st1, dArgs⟩, h1, sig, hsig, st2, h2, heq⟩ := h
    have hst := congrArg Prod.fst heq
    simp only at hst
    have p2 := pushEvalInstr_fields h2
    rw [← hst]
    exact (visitSeq_ok hv h1).chain (Preserves.of_eq _ p2.1 p2.2)

lemma visitReturn_ok {ns : String} {v : Visitor} {expr : Option ParserNode}
    {st st' : CGState} {d : List Action} (hv : VisitOK ns v)
    (h : visitReturn v expr st = some (st', d)) : Preserves ns st st' := by
  cases expr with
  | some e =>
      simp only [visitReturn, optBind_eq_some, optPure_eq_some] at h
      obtain ⟨ctx, hctx, ⟨st1, d1⟩, h1, ⟨⟨r, flushActs, st2⟩, h2,
        ⟨ctx2, hctx2, heq⟩⟩⟩ := h
      have hst := congrArg Prod.fst heq
      simp only at hst
      have p1 : Preserves ns st st1 :=
        (Preserves.of_eq (beginEvaluation ctx.scoreboard st)
          rfl rfl).chain (hv _ _ _ _ h1)
      have p2 := endCurrentEvaluation_fields h2
      rw [← hst]
      exact p1.chain (Preserves.of_eq _ p2.1 p2.2)
  | none =>
      simp only [visitReturn, optBind_eq_some, optPure_eq_some] at h
      obtain ⟨ctx, hctx, heq⟩ := h
      have hst := congrArg Prod.fst heq
      simp only at hst
      rw [← hst]
      exact Preserves.of_eq _ rfl rfl

lemma visitUnary_ok {ns : String} {v : Visitor} {expr : ParserNode}
    {op : Operation} {st st' : CGState} {d : List Action}
    (hv : VisitOK ns v) (h : visitUnary v expr op st = some (st', d)) :
    Preserves ns st st' := by
  cases op <;>
    simp only [visitUnary, optBind_eq_some, optPure_eq_some] at h
  case Negate =>
    obtain ⟨⟨st1, d1⟩, h1, ⟨st2, h2, st3, h3, heq⟩⟩ := h
    have hst := congrArg Prod.fst heq
    simp only at hst
    have p2 := pushEvalInstr_fields h2
    have p3 := pushEvalInstr_fields h3
    rw [← hst]
    exact ((hv _ _ _ _ h1).chain (Preserves.of_eq _ p2.1 p2.2)).chain
      (Preserves.of_eq _ p3.1 p3.2)
  case Not =>
    obtain ⟨st1, h1, ⟨⟨st2, d1⟩, h2, st3, h3, heq⟩⟩ := h
    have hst := congrArg Prod.fst heq
    simp only at hst
    have p1 := pushEvalInstr_fields h1
    have p3 := pushEvalInstr_fields h3
    rw [← hst]
    exact ((Preserves.of_eq _ p1.1 p1.2).chain (hv _ _ _ _ h2)).chain
      (Preserves.of_eq _ p3.1 p3.2)
  all_goals exact Option.noConfusion h

lemma visitFunctionDeclaration_ok {env : Env} {v : Visitor} {name : String}
    {body : ParserNode} {st st' : CGState} {d : List Action}
    (hv : VisitOK env.ns v)
    (h : visitFunctionDeclaration env v name body st = some (st', d)) :
    Preserves env.ns st st' := by
  simp only [visitFunctionDeclaration, optBind_eq_some, optPure_eq_some] at h
  obtain ⟨sig, hsig, ⟨stB, dBody⟩, hbody, ⟨fin, stB2⟩, hpop, heq⟩ := h
  have hb := hv _ _ _ _ hbody
  have hbsh : List.Forall₂ ctxShape
      (⟨name, ResourceLocation.scoreboard env.ns name, false, 0⟩ ::
        st.ctxStack) stB.ctxStack := hb.1
  have hx : stB.ctxStack = fin :: stB2.ctxStack := (popCtx_fields hpop).1
  rw [hx] at hbsh
  obtain ⟨hshape, htail⟩ := List.forall₂_cons.mp hbsh
  have hst := congrArg Prod.fst heq
  simp only at hst
  rw [← hst]
  refine ⟨htail, fun hR => ?_⟩
  have hready : stB2.ready = stB.ready := (popCtx_fields hpop).2
  refine ReadyInvL_insert ?_ ?_
  · rw [hready]
    exact hb.2 hR
  · intro _
    show fin.scoreboard = ResourceLocation.scoreboard env.ns fin.name
    rw [hshape.2.1, hshape.1]

lemma visitIfThen_ok {ns : String} {env : Env} {v : Visitor}
    {cond body : ParserNode} {st st' : CGState} {d : List Action} {rt : Int}
    (hv : VisitOK ns v)
    (h : visitIfThen env v cond body st = some (st', d, rt)) :
    Preserves ns st st' := by
  simp only [visitIfThen, optBind_eq_some, optPure_eq_some] at h
  obtain ⟨ctx, hctx, ⟨stB, dCond⟩, h1, ⟨r, fA, stC⟩, h2, ⟨parent, stE⟩,
    hpop1, ⟨stG, dBody⟩, hbody, ⟨finT, stH⟩, hpop2, ctx2, hctx2, gj1, hgj,
    heq⟩ := h
  have hcnd : List.Forall₂ ctxShape st.ctxStack stB.ctxStack :=
    (hv _ _ _ _ h1).1
  have e2 : stC.ctxStack = stB.ctxStack := (endCurrentEvaluation_fields h2).1
  rw [← e2] at hcnd
  have hx1 : stC.ctxStack = parent :: stE.ctxStack := (popCtx_fields hpop1).1
  rw [hx1] at hcnd
  obtain ⟨c0, t0, hc0, ht0, hst0⟩ := List.forall₂_cons_right_iff.mp hcnd
  have hbP := hv _ _ _ _ hbody
  have hbsh : List.Forall₂ ctxShape
      (parent.makeAnonymousChild.1 :: parent.makeAnonymousChild.2 ::
        stE.ctxStack) stG.ctxStack := hbP.1
  have hx2 : stG.ctxStack = finT :: stH.ctxStack := (popCtx_fields hpop2).1
  rw [hx2] at hbsh
  obtain ⟨hshT, hbsh2⟩ := List.forall₂_cons.mp hbsh
  have hst := congrArg Prod.fst heq
  simp only at hst
  rw [← hst]
  constructor
  · show List.Forall₂ ctxShape st.ctxStack stH.ctxStack
    rw [hst0]
    exact stackShape_trans
      (List.Forall₂.cons (hc0.comp (makeAnonymousChild_shape parent)) ht0)
      hbsh2
  · intro hR
    show ReadyInvL ns (readyInsert stH.ready _)
    have r1 : ReadyInvL ns stB.ready := (hv _ _ _ _ h1).2 hR
    have r2 : stC.ready = stB.ready := (endCurrentEvaluation_fields h2).2
    have r3 : stE.ready = stC.ready := (popCtx_fields hpop1).2
    have r4 : ReadyInvL ns stG.ready := hbP.2 (by rw [r3, r2]; exact r1)
    have r5 : stH.ready = stG.ready := (popCtx_fields hpop2).2
    refine ReadyInvL_insert (by rw [r5]; exact r4) ?_
    intro hfalse
    rw [show finT.isAnonymous = parent.makeAnonymousChild.1.isAnonymous
      from hshT.2.2] at hfalse
    simp [FuncCtx.makeAnonymousChild] at hfalse

lemma visitIfElse_ok {ns : String} {env : Env} {v : Visitor}
    {eb : ParserNode} {rt : Int} {st st' : CGState} {d : List Action}
    (hv : VisitOK ns v)
    (h : visitIfElse env v eb rt st = some (st', d)) :
    Preserves ns st st' := by
  simp only [visitIfElse, optBind_eq_some, optPure_eq_some] at h
  obtain ⟨⟨parent, stE⟩, hpop1, ⟨stG, dElse⟩, hbody, ⟨finF, stH⟩, hpop2,
    ctx3, hctx3, heq⟩ := h
  have hx1 : st.ctxStack = parent :: stE.ctxStack := (popCtx_fields hpop1).1
  have hbP := hv _ _ _ _ hbody
  have hbsh : List.Forall₂ ctxShape
      (parent.makeAnonymousChild.1 :: parent.makeAnonymousChild.2 ::
        stE.ctxStack) stG.ctxStack := hbP.1
  have hx2 : stG.ctxStack = finF :: stH.ctxStack := (popCtx_fields hpop2).1
  rw [hx2] at hbsh
  obtain ⟨hshF, hbsh2⟩ := List.forall₂_cons.mp hbsh
  have hst := congrArg Prod.fst heq
  simp only at hst
  rw [← hst]
  constructor
  · show List.Forall₂ ctxShape st.ctxStack stH.ctxStack
    rw [hx1]
    exact stackShape_trans
      (List.Forall₂.cons (makeAnonymousChild_shape parent)
        (stackShape_refl _)) hbsh2
  · intro hR
    show ReadyInvL ns (readyInsert stH.ready _)
    have r3 : stE.ready = st.ready := (popCtx_fields hpop1).2
    have r4 : ReadyInvL ns stG.ready := hbP.2 (by rw [r3]; exact hR)
    have r5 : stH.ready = stG.ready := (popCtx_fields hpop2).2
    refine ReadyInvL_insert (by rw [r5]; exact r4) ?_
    intro hfalse
    rw [show finF.isAnonymous = parent.makeAnonymousChild.1.isAnonymous
      from hshF.2.2] at hfalse
    simp [FuncCtx.makeAnonymousChild] at hfalse

lemma visitIf_ok {ns : String} {env : Env} {v : Visitor}
    {cond body : ParserNode} {elseBody : Option ParserNode}
    {st st' : CGState} {d : List Action} (hv : VisitOK ns v)
    (h : visitIf env v cond body elseBody st = some (st', d)) :
    Preserves ns st st' := by
  cases elseBody with
  | some eb =>
      simp only [visitIf, optBind_eq_some, optPure_eq_some] at h
      obtain ⟨⟨stT, dThen, rt⟩, hthen, ⟨stH, dElse⟩, helse, gj2, hgj,
        heq⟩ := h
      have hst := congrArg Prod.fst heq
      simp only at hst
      rw [← hst]
      exact (visitIfThen_ok hv hthen).chain (visitIfElse_ok hv helse)
  | none =>
      simp only [visitIf, optBind_eq_some, optPure_eq_some] at h
      obtain ⟨⟨stT, dThen, rt⟩, hthen, gj2, hgj, heq⟩ := h
      have hst := congrArg Prod.fst heq
      simp only at hst
      rw [← hst]
      exact visitIfThen_ok hv hthen

lemma visitForLoop_ok {ns : String} {env : Env} {v : Visitor}
    {init cond step body : ParserNode} {st st' : CGState} {d : List Action}
    {lc : FuncCtx} (hv : VisitOK ns v)
    (h : visitForLoop env v init cond step body st = some (st', d, lc)) :
    Preserves ns st st' := by
  simp only [visitForLoop, optBind_eq_some, optPure_eq_some] at h
  obtain ⟨⟨stA, dInit⟩, hinit, ⟨parent, stE⟩, hpop1, ⟨stB, dBody⟩, hbody,
    ⟨stS, dStep⟩, hstep, ctxL, hctxL, ⟨stC, dCond1⟩, hcnd, ⟨t1, fA1, stD⟩,
    hend, ctxL2, hctxL2, ⟨finL, stH⟩, hpop2, heq⟩ := h
  have hinitP : Preserves ns st stA :=
    (Preserves.of_eq { st with loopDepth := st.loopDepth + 1 }
      rfl rfl).chain (hv _ _ _ _ hinit)
  have hx1 : stA.ctxStack = parent :: stE.ctxStack := (popCtx_fields hpop1).1
  have hcnd0 := hinitP.1
  rw [hx1] at hcnd0
  obtain ⟨c0, t0, hc0, ht0, hst0⟩ := List.forall₂_cons_right_iff.mp hcnd0
  have hbP := hv _ _ _ _ hbody
  have hsP := hv _ _ _ _ hstep
  have hcP := hv _ _ _ _ hcnd
  have hbsh : List.Forall₂ ctxShape
      (parent.makeAnonymousChild.1 :: parent.makeAnonymousChild.2 ::
        stE.ctxStack) stB.ctxStack := hbP.1
  have hssh : List.Forall₂ ctxShape stB.ctxStack stS.ctxStack := hsP.1
  have hcsh : List.Forall₂ ctxShape stS.ctxStack stC.ctxStack := hcP.1
  have e2 : stD.ctxStack = stC.ctxStack := (endCurrentEvaluation_fields hend).1
  have hx2 : stD.ctxStack = finL :: stH.ctxStack := (popCtx_fields hpop2).1
  have hall := stackShape_trans (stackShape_trans hbsh hssh) hcsh
  rw [← e2, hx2] at hall
  obtain ⟨hshL, hall2⟩ := List.forall₂_cons.mp hall
  have hst := congrArg Prod.fst heq
  simp only at hst
  rw [← hst]
  constructor
  · show List.Forall₂ ctxShape st.ctxStack stH.ctxStack
    rw [hst0]
    exact stackShape_trans
      (List.Forall₂.cons (hc0.comp (makeAnonymousChild_shape parent)) ht0)
      hall2
  · intro hR
    show ReadyInvL ns (readyInsert stH.ready _)
    have r1 : ReadyInvL ns stA.ready := hinitP.2 hR
    have r2 : stE.ready = stA.ready := (popCtx_fields hpop1).2
    have r3 : ReadyInvL ns stB.ready := hbP.2 (by rw [r2]; exact r1)
    have r4 : ReadyInvL ns stC.ready := hcP.2 (hsP.2 r3)
    have r5 : stD.ready = stC.ready := (endCurrentEvaluation_fields hend).2
    have r6 : stH.ready = stD.ready := (popCtx_fields hpop2).2
    refine ReadyInvL_insert (by rw [r6, r5]; exact r4) ?_
    intro hfalse
    rw [show finL.isAnonymous = parent.makeAnonymousChild.1.isAnonymous
      from hshL.2.2] at hfalse
    simp [FuncCtx.makeAnonymousChild] at hfalse

lemma visitForEntry_ok {ns : String} {env : Env} {v : Visitor}
    {cond : ParserNode} {lc : FuncCtx} {dInit : List Action}
    {st st' : CGState} {d : List Action} (hv : VisitOK ns v)
    (h : visitForEntry env v cond lc dInit st = some (st', d)) :
    Preserves ns st st' := by
  simp only [visitForEntry, optBind_eq_some, optPure_eq_some] at h
  obtain ⟨ctxP, hctxP, ⟨stB, dCond⟩, h1, ⟨r, fA, stC⟩, h2, ctxP2, hctxP2,
    gj, hgj, heq⟩ := h
  have hcnd : Preserves ns st stB :=
    (Preserves.of_eq (beginEvaluation ctxP.scoreboard st)
      rfl rfl).chain (hv _ _ _ _ h1)
  have e2 := endCurrentEvaluation_fields h2
  have hst := congrArg Prod.fst heq
  simp only at hst
  rw [← hst]
  exact (hcnd.chain (Preserves.of_eq _ e2.1 e2.2)).chain
    (Preserves.of_eq _ rfl rfl)

lemma visitFor_ok {ns : String} {env : Env} {v : Visitor}
    {init cond step body : ParserNode} {st st' : CGState} {d : List Action}
    (hv : VisitOK ns v)
    (h : visitFor env v init cond step body st = some (st', d)) :
    Preserves ns st st' := by
  simp only [visitFor, optBind_eq_some] at h
  obtain ⟨⟨stL, dInit, lc⟩, hloop, hentry⟩ := h
  exact (visitForLoop_ok hv hloop).chain (visitForEntry_ok hv hentry)

lemma visitDispatch_ok {env : Env} {v : Visitor} (hv : VisitOK env.ns v) :
    ∀ node st st' d, visitDispatch env v node st = some (st', d) →
      Preserves env.ns st st' := by
  intro node st st' d h
  cases node <;> simp only [visitDispatch] at h
  case NumberLiteral num =>
    simp only [optBind_eq_some, optPure_eq_some] at h
    obtain ⟨st1, h1, heq⟩ := h
    have hst := congrArg Prod.fst heq
    simp only at hst
    have p1 := pushEvalInstr_fields h1
    rw [← hst]
    exact Preserves.of_eq _ p1.1 p1.2
  case BoolLiteral b =>
    simp only [optBind_eq_some, optPure_eq_some] at h
    obtain ⟨st1, h1, heq⟩ := h
    have hst := congrArg Prod.fst heq
    simp only at hst
    have p1 := pushEvalInstr_fields h1
    rw [← hst]
    exact Preserves.of_eq _ p1.1 p1.2
  case Identifier name =>
    simp only [optBind_eq_some, optPure_eq_some] at h
    obtain ⟨ctx, hctx, st1, h1, heq⟩ := h
    have hst := congrArg Prod.fst heq
    simp only at hst
    have p1 := pushEvalInstr_fields h1
    rw [← hst]
    exact Preserves.of_eq _ p1.1 p1.2
  case Operation lhs rhs op => exact visitBinaryOperation_ok hv h
  case OpEquals name expr op => exact visitOpEquals_ok hv h
  case VariableDeclaration name expr => exact visitVariableAssignment_ok hv h
  case VariableAssignment name expr => exact visitVariableAssignment_ok hv h
  case Program nodes => exact visitSeq_ok hv h
  case FunctionDeclaration name args body =>
    exact visitFunctionDeclaration_ok hv h
  case FunctionCall name args => exact visitFunctionCall_ok hv h
  case Return expr => exact visitReturn_ok hv h
  case Block nodes => exact visitSeq_ok hv h
  case TypedIdentifier =>
    simp only [Option.pure_def, Option.some_inj] at h
    have hst := congrArg Prod.fst h
    simp only at hst
    rw [← hst]
    exact Preserves.of_eq _ rfl rfl
  case Unary expr op => exact visitUnary_ok hv h
  case If cond body elseIfs elseBody => exact visitIf_ok hv h
  case For init cond step body => exact visitFor_ok hv h
  case Break =>
    simp only [optBind_eq_some, optPure_eq_some] at h
    obtain ⟨ctx, hctx, heq⟩ := h
    have hst := congrArg Prod.fst heq
    simp only at hst
    rw [← hst]
    exact Preserves.of_eq _ rfl rfl
  case CommandLiteral command =>
    simp only [optBind_eq_some, optPure_eq_some] at h
    obtain ⟨ctx, hctx, heq⟩ := h
    have hst := congrArg Prod.fst heq
    simp only at hst
    rw [← hst]
    exact Preserves.of_eq _ rfl rfl
  case StructDefinition =>
    simp only [Option.pure_def, Option.some_inj] at h
    have hst := congrArg Prod.fst h
    simp only at hst
    rw [← hst]
    exact Preserves.of_eq _ rfl rfl

/-- Every successful `visit_node` call preserves the builder-stack shape
and the ready-set invariant, whatever the fuel. -/
lemma visitNode_ok (env : Env) :
    ∀ fuel, VisitOK env.ns (visit_node env fuel) := by
  intro fuel
  induction fuel with
  | zero => intro node st st' d h; exact absurd h (by simp [visit_node])
  | succ n ih =>
      intro node st st' d h
      simp only [visit_node, Option.map_eq_some'] at h
      obtain ⟨⟨st0, d0⟩, hdisp, heq⟩ := h
      have hst := congrArg Prod.fst heq
      simp only at hst
      rw [← hst]
      exact (visitDispatch_ok ih node st st0 d0 hdisp).chain
        (Preserves.of_eq _ rfl rfl)

/-! ## Claim C8 -/

/-- C8: for every function declaration whose signature's return type is not
`none`, the builder created for it receives `SetVariableToNumber{RETFLAG,0}`
as its first action, before anything the body emits; when the return type
is `none`, no prelude is prepended — the builder's actions are exactly the
body's emissions.  The declaration itself appends nothing to the enclosing
function. -/
theorem C8_theorem {env : Env} {fuel : Nat} {name : String}
    {args : List ParserNode} {body : ParserNode} {st st' : CGState}
    {dOut : List Action}
    (h : visit_node env (fuel + 1) (.FunctionDeclaration name args body) st
      = some (st', dOut)) :
    ∃ sig stB dBody,
      env.sigs.lookup name = some sig ∧
      visit_node env fuel body
        { st with ctxStack :=
            ⟨name, ResourceLocation.scoreboard env.ns name, false, 0⟩ ::
              st.ctxStack } = some (stB, dBody) ∧
      dOut = [] ∧
      ∃ f ∈ st'.ready, f.name = name ∧ f.isAnonymous = false ∧
        f.scoreboard = ResourceLocation.scoreboard env.ns name ∧
        f.actions =
          (if sig.returnType ≠ Ty.none then
            [Action.SetVariableToNumber
              ⟨ResourceLocation.scoreboard env.ns name, "RETFLAG"⟩ 0]
          else []) ++ dBody := by
  simp only [visit_node, Option.map_eq_some'] at h
  obtain ⟨⟨st0, d0⟩, hdisp, heq⟩ := h
  simp only [visitDispatch, visitFunctionDeclaration, optBind_eq_some,
    optPure_eq_some] at hdisp
  obtain ⟨sig, hsig, ⟨stB, dBody⟩, hbody, ⟨fin, stB2⟩, hpop, heq2⟩ := hdisp
  have hbsh : List.Forall₂ ctxShape
      (⟨name, ResourceLocation.scoreboard env.ns name, false, 0⟩ ::
        st.ctxStack) stB.ctxStack :=
    ((visitNode_ok env fuel) body _ _ _ hbody).1
  have hx : stB.ctxStack = fin :: stB2.ctxStack := (popCtx_fields hpop).1
  rw [hx] at hbsh
  obtain ⟨hshape, _⟩ := List.forall₂_cons.mp hbsh
  injection heq2 with hst0 hd0
  injection heq with hst' hdOut
  refine ⟨sig, stB, dBody, hsig, hbody, by rw [← hdOut, ← hd0], ?_⟩
  refine ⟨⟨fin.name, fin.scoreboard,
    (if sig.returnType ≠ Ty.none then
      [Action.SetVariableToNumber
        ⟨ResourceLocation.scoreboard env.ns name, "RETFLAG"⟩ 0]
    else []) ++ dBody, fin.isAnonymous⟩, ?_, ?_, ?_, ?_, rfl⟩
  · show _ ∈ st'.ready
    rw [← hst', ← hst0]
    exact readyInsert_self_mem _ _
  · show fin.name = name
    rw [hshape.1]
  · show fin.isAnonymous = false
    rw [hshape.2.2]
  · show fin.scoreboard = ResourceLocation.scoreboard env.ns name
    rw [hshape.2.1]

/-- The declaration of `f` from scenario C3, used to witness C8. -/
def c8Decl : ParserNode :=
  .FunctionDeclaration "f" [.TypedIdentifier]
    (.Block [.Return (some
      (.Operation (.Identifier "x") (.NumberLiteral 1) .Add))])

/-- C8 witness: the theorem applied to the declaration of `f` (whose return
type is `int`, not `none`) from the initial state. -/
theorem C8_witness :
    ∃ sig stB dBody,
      envC3.sigs.lookup "f" = some sig ∧
      visit_node envC3 19
        (.Block [.Return (some
          (.Operation (.Identifier "x") (.NumberLiteral 1) .Add))])
        { CGState.initial with ctxStack :=
            [⟨"f", ResourceLocation.scoreboard "p" "f", false, 0⟩] } =
        some (stB, dBody) ∧
      ([] : List Action) = [] ∧
      ∃ f ∈ (⟨[], [c3F], [], 0, 0, 0, false, false⟩ : CGState).ready,
        f.name = "f" ∧ f.isAnonymous = false ∧
        f.scoreboard = ResourceLocation.scoreboard envC3.ns "f" ∧
        f.actions =
          (if sig.returnType ≠ Ty.none then
            [Action.SetVariableToNumber
              ⟨ResourceLocation.scoreboard envC3.ns "f", "RETFLAG"⟩ 0]
          else []) ++ dBody := by
  have h : visit_node envC3 (19 + 1)
      (.FunctionDeclaration "f" [.TypedIdentifier]
        (.Block [.Return (some
          (.Operation (.Identifier "x") (.NumberLiteral 1) .Add))]))
      CGState.initial =
      some ((⟨[], [c3F], [], 0, 0, 0, false, false⟩ : CGState),
        ([] : List Action)) := rfl
  exact C8_theorem h

/-! ## Claim C7 -/

lemma scoreboard_str_inj {ns a b : String}
    (h : (ResourceLocation.scoreboard ns a).str
      = (ResourceLocation.scoreboard ns b).str) : a = b := by
  have hd := congrArg String.data h
  simp only [ResourceLocation.scoreboard, ResourceLocation.str,
    String.data_append, List.append_assoc] at hd
  exact String.ext (List.append_cancel_left (List.append_cancel_left hd))

/-- A name absent from the list contributes no `CreateStorage`. -/
lemma storage_count_zero (ns : String) :
    ∀ (l : List Function) (nm : String),
      nm ∉ l.map (fun g => g.name) →
      ((l.filter (fun g => !g.isAnonymous)).map
        (fun g => Action.CreateStorage
          (ResourceLocation.scoreboard ns g.name).str)).count
        (Action.CreateStorage (ResourceLocation.scoreboard ns nm).str) = 0
  | [], nm, _ => rfl
  | g :: gs, nm, h => by
      simp only [List.map_cons, List.mem_cons, not_or] at h
      by_cases hg : g.isAnonymous
      · simpa [List.filter_cons, hg] using storage_count_zero ns gs nm h.2
      · have hne : Action.CreateStorage
            (ResourceLocation.scoreboard ns g.name).str ≠
            Action.CreateStorage (ResourceLocation.scoreboard ns nm).str := by
          intro he
          injection he with hs
          exact h.1 (scoreboard_str_inj hs).symm
        simpa [List.filter_cons, hg, List.count_cons, hne]
          using storage_count_zero ns gs nm h.2

/-- With unique names, each non-anonymous ready function contributes exactly
one matching `CreateStorage`. -/
lemma storage_count_one (ns : String) :
    ∀ (l : List Function) (f : Function),
      (l.map (fun g => g.name)).Nodup → f ∈ l → f.isAnonymous = false →
      ((l.filter (fun g => !g.isAnonymous)).map
        (fun g => Action.CreateStorage
          (ResourceLocation.scoreboard ns g.name).str)).count
        (Action.CreateStorage (ResourceLocation.scoreboard ns f.name).str)
        = 1
  | [], f, _, hf, _ => absurd hf (List.not_mem_nil f)
  | g :: gs, f, hnd, hf, hanon => by
      simp only [List.map_cons, List.nodup_cons] at hnd
      rcases List.mem_cons.mp hf with rfl | hfgs
      · have hz := storage_count_zero ns gs f.name hnd.1
        simpa [List.filter_cons, hanon, List.count_cons] using hz
      · have hgname : g.name ≠ f.name := by
          intro he
          exact hnd.1 (he ▸ List.mem_map_of_mem (fun g => g.name) hfgs)
        have hrec := storage_count_one ns gs f hnd.2 hfgs hanon
        by_cases hg : g.isAnonymous
        · simpa [List.filter_cons, hg] using hrec
        · have hne : Action.CreateStorage
              (ResourceLocation.scoreboard ns g.name).str ≠
              Action.CreateStorage
                (ResourceLocation.scoreboard ns f.name).str := by
            intro he
            injection he with hs
            exact hgname (scoreboard_str_inj hs)
          simpa [List.filter_cons, hg, List.count_cons, hne] using hrec

/-- C7: after compilation, for every ready function `f` that is neither
anonymous nor `_sculkmain`, the synthesized `_sculkmain` contains exactly
one `CreateStorage` whose name is the dotted form of `f`'s scoreboard, and
the final action of `_sculkmain` is the call to `<ns>:main`. -/
theorem C7_theorem {env : Env} {fuel : Nat} {ast : ParserNode}
    {out : CompileOutput} (h : compile_src env fuel ast = some out)
    {f : Function} (hf : f ∈ out.ready) (hanon : f.isAnonymous = false)
    (hname : f.name ≠ "_sculkmain") :
    ∃ sm ∈ out.ready, sm.name = "_sculkmain" ∧
      sm.actions.count (Action.CreateStorage f.scoreboard.str) = 1 ∧
      sm.actions.getLast? =
        some (Action.CallFunction (ResourceLocation.new env.ns "main")) := by
  simp only [compile_src, optBind_eq_some, optPure_eq_some] at h
  obtain ⟨⟨st, dTop⟩, hvisit, hout⟩ := h
  have hinv : ReadyInvL env.ns st.ready :=
    ((visitNode_ok env fuel) _ _ _ _ hvisit).2
      ⟨fun g hg _ => absurd hg (List.not_mem_nil g), List.nodup_nil⟩
  obtain rfl := hout.symm
  simp only [CompileOutput.mk.injEq] at hf ⊢
  rcases readyInsert_mem hf with rfl | hfmem
  · exact absurd rfl hname
  · refine ⟨_, readyInsert_self_mem _ _, rfl, ?_, ?_⟩
    · show (((st.ready.filter (fun g => !g.isAnonymous)).map
          (fun g => Action.CreateStorage
            (ResourceLocation.scoreboard env.ns g.name).str)) ++
          [Action.CallFunction (ResourceLocation.new env.ns "main")]).count
          (Action.CreateStorage f.scoreboard.str) = 1
      rw [hinv.1 f hfmem hanon, List.count_append]
      have h1 := storage_count_one env.ns st.ready f hinv.2 hfmem hanon
      have h2 : ([Action.CallFunction
          (ResourceLocation.new env.ns "main")].count
          (Action.CreateStorage
            (ResourceLocation.scoreboard env.ns f.name).str)) = 0 := by
        simp [List.count_cons]
      rw [h1, h2]
    · show (_ ++ [Action.CallFunction
        (ResourceLocation.new env.ns "main")]).getLast? = _
      rw [List.getLast?_concat]

/-- C7 witness: in the concrete C3 scenario compile, the synthesized
`_sculkmain` contains exactly one `CreateStorage p.f` for the ready
function `f`, and its last action is `function p:main`. -/
theorem C7_witness :
    ∃ sm ∈ (CompileOutput.mk [c3F, c3Main, c3Sculk]).ready,
      sm.name = "_sculkmain" ∧
      sm.actions.count (Action.CreateStorage c3F.scoreboard.str) = 1 ∧
      sm.actions.getLast? =
        some (Action.CallFunction (ResourceLocation.new "p" "main")) := by
  have h : compile_src envC3 30 progC3 = some ⟨[c3F, c3Main, c3Sculk]⟩ := by
    decide
  exact C7_theorem h (by decide) rfl (by decide)

/-! ## Claim C6 -/

/-- C6: for every `for(init; cond; step) body` node, `visit_node` lowers the
condition twice, each time into a separate fresh `EvaluationStack`
(`beginEvaluation` pushes a brand-new empty stack), producing exactly the two
`ExecuteIf`-guarded `CallFunction` emission sites of `visit_for`, both
targeting the anonymous loop function: that function is completed with the
self-recursive guarded call as its last action and inserted into the ready
set, and the enclosing function receives the guarded entry call right after
`init`'s actions (followed only by the jump-accounting guards). -/
theorem C6_theorem {env : Env} {fuel : Nat}
    {init cond step body : ParserNode} {st stFin : CGState}
    {dOut : List Action}
    (h : visit_node env (fuel + 1) (.For init cond step body) st
      = some (stFin, dOut)) :
    ∃ (stA stA2 stB stS stC stD stH stF stG : CGState)
      (parent cL cL2 cP cP2 : FuncCtx) (fL : Function)
      (dInit dBody dStep dCond1 dCond2 fl1 fl2 gj : List Action)
      (t1 t2 : Int),
      visit_node env fuel init { st with loopDepth := st.loopDepth + 1 }
        = some (stA, dInit) ∧
      popCtx stA = some (parent, stA2) ∧
      visit_node env fuel body
        { stA2 with ctxStack := parent.makeAnonymousChild.1 ::
            parent.makeAnonymousChild.2 :: stA2.ctxStack }
        = some (stB, dBody) ∧
      visit_node env fuel step stB = some (stS, dStep) ∧
      stS.ctxStack.head? = some cL ∧
      visit_node env fuel cond (beginEvaluation cL.scoreboard stS)
        = some (stC, dCond1) ∧
      endCurrentEvaluation stC = some (t1, fl1, stD) ∧
      popCtx stD = some (cL2, stH) ∧
      cL2.scoreboard = cL.scoreboard ∧
      fL = ⟨cL2.name, cL2.scoreboard,
        dBody ++ dStep ++ dCond1 ++ fl1 ++
          [Action.ExecuteIf
            ("score " ++ (ctxTmp cL2 t1).str ++ " matches 1")
            (.CallFunction (ResourceLocation.new env.ns
              parent.makeAnonymousChild.1.name))],
        cL2.isAnonymous⟩ ∧
      fL.name = parent.makeAnonymousChild.1.name ∧
      fL.isAnonymous = true ∧
      fL.actions.getLast? = some (Action.ExecuteIf
        ("score " ++ (ctxTmp cL2 t1).str ++ " matches 1")
        (.CallFunction (ResourceLocation.new env.ns
          parent.makeAnonymousChild.1.name))) ∧
      fL ∈ ({ stH with ready := readyInsert stH.ready fL } : CGState).ready ∧
      ({ stH with ready := readyInsert stH.ready fL } : CGState).ctxStack.head?
        = some cP ∧
      visit_node env fuel cond (beginEvaluation cP.scoreboard
          { stH with ready := readyInsert stH.ready fL })
        = some (stF, dCond2) ∧
      endCurrentEvaluation stF = some (t2, fl2, stG) ∧
      stG.ctxStack.head? = some cP2 ∧
      cP2.scoreboard = cP.scoreboard ∧
      accountForJumps
        { stG with
          flagTmpCount := stG.flagTmpCount + 1
          propagateBreak := false } = some gj ∧
      dOut = dInit ++ dCond2 ++ fl2 ++
        [Action.ExecuteIf
          ("score " ++ (ctxTmp cP2 t2).str ++ " matches 1")
          (.CallFunction (ResourceLocation.new env.ns
            parent.makeAnonymousChild.1.name))] ++ gj := by
  have hv : VisitOK env.ns (visit_node env fuel) := visitNode_ok env fuel
  simp only [visit_node, Option.map_eq_some'] at h
  obtain ⟨⟨stMidF, dOut0⟩, h, heqFin⟩ := h
  simp only [visitDispatch] at h
  simp only [visitFor, optBind_eq_some] at h
  obtain ⟨⟨stMid, dI, lc⟩, hloop, hentry⟩ := h
  simp only [visitForLoop, optBind_eq_some, optPure_eq_some] at hloop
  obtain ⟨⟨stA, dInitA⟩, hinit, ⟨parent, stA2⟩, hpop1, ⟨stB, dBody⟩, hbody,
    ⟨stS, dStep⟩, hstep, cL, hcL, ⟨stC, dCond1⟩, hcnd1, ⟨t1, fl1, stD⟩,
    hend1, cL2h, hcL2, ⟨finL, stH⟩, hpop2, heqL⟩ := hloop
  simp only [Prod.mk.injEq] at heqL
  obtain ⟨hMid, hdI, hlc⟩ := heqL
  subst hMid
  subst hdI
  subst hlc
  have hx2 : stD.ctxStack = finL :: stH.ctxStack := (popCtx_fields hpop2).1
  have hfinL : finL = cL2h := by
    rw [hx2] at hcL2
    simp only [List.head?_cons, Option.some_inj] at hcL2
    exact hcL2
  subst hfinL
  simp only [visitForEntry, optBind_eq_some, optPure_eq_some] at hentry
  obtain ⟨cP, hcP, ⟨stF, dCond2⟩, hcnd2, ⟨t2, fl2, stG⟩, hend2, cP2, hcP2,
    gj, hgj, heqE⟩ := hentry
  simp only [Prod.mk.injEq] at heqE
  obtain ⟨hMF, hD0⟩ := heqE
  subst hMF
  subst hD0
  simp only [Prod.mk.injEq] at heqFin
  obtain ⟨hFin, hDout⟩ := heqFin
  have hbsh : List.Forall₂ ctxShape
      (parent.makeAnonymousChild.1 :: parent.makeAnonymousChild.2 ::
        stA2.ctxStack) stB.ctxStack := (hv _ _ _ _ hbody).1
  have hssh : List.Forall₂ ctxShape stB.ctxStack stS.ctxStack :=
    (hv _ _ _ _ hstep).1
  have hcsh : List.Forall₂ ctxShape stS.ctxStack stC.ctxStack :=
    (hv _ _ _ _ hcnd1).1
  have e1 : stD.ctxStack = stC.ctxStack := (endCurrentEvaluation_fields hend1).1
  have hall := stackShape_trans (stackShape_trans hbsh hssh) hcsh
  rw [← e1, hx2] at hall
  have hshL := (List.forall₂_cons.mp hall).1
  have hScons : ∃ tl, stS.ctxStack = cL :: tl := by
    cases hstk : stS.ctxStack with
    | nil => rw [hstk] at hcL; exact absurd hcL (by simp)
    | cons c0 tl =>
        rw [hstk] at hcL
        simp only [List.head?_cons, Option.some_inj] at hcL
        exact ⟨tl, by rw [hcL]⟩
  obtain ⟨tl, hScons⟩ := hScons
  have hcLsh : ctxShape cL finL := by
    have h5 := hcsh
    rw [hScons, ← e1, hx2] at h5
    exact (List.forall₂_cons.mp h5).1
  have hcP' : stH.ctxStack.head? = some cP := hcP
  have hHcons : ∃ tl2, stH.ctxStack = cP :: tl2 := by
    cases hstk : stH.ctxStack with
    | nil => rw [hstk] at hcP'; exact absurd hcP' (by simp)
    | cons c0 tl2 =>
        rw [hstk] at hcP'
        simp only [List.head?_cons, Option.some_inj] at hcP'
        exact ⟨tl2, by rw [hcP']⟩
  obtain ⟨tl2, hHcons⟩ := hHcons
  have hcsh2 : List.Forall₂ ctxShape stH.ctxStack stF.ctxStack :=
    (hv _ _ _ _ hcnd2).1
  have e2 : stG.ctxStack = stF.ctxStack := (endCurrentEvaluation_fields hend2).1
  have hcP2' : stG.ctxStack.head? = some cP2 := hcP2
  have hGcons : ∃ tl3, stG.ctxStack = cP2 :: tl3 := by
    cases hstk : stG.ctxStack with
    | nil => rw [hstk] at hcP2'; exact absurd hcP2' (by simp)
    | cons c0 tl3 =>
        rw [hstk] at hcP2'
        simp only [List.head?_cons, Option.some_inj] at hcP2'
        exact ⟨tl3, by rw [hcP2']⟩
  obtain ⟨tl3, hGcons⟩ := hGcons
  have hcPsh : ctxShape cP cP2 := by
    have h6 := hcsh2
    rw [hHcons, ← e2, hGcons] at h6
    exact (List.forall₂_cons.mp h6).1
  refine ⟨stA, stA2, stB, stS, stC, stD, stH, stF, stG,
    parent, cL, finL, cP, cP2,
    ⟨finL.name, finL.scoreboard,
      dBody ++ dStep ++ dCond1 ++ fl1 ++
        [Action.ExecuteIf
          ("score " ++ (ctxTmp finL t1).str ++ " matches 1")
          (.CallFunction (ResourceLocation.new env.ns
            parent.makeAnonymousChild.1.name))],
      finL.isAnonymous⟩,
    dInitA, dBody, dStep, dCond1, dCond2, fl1, fl2, gj, t1, t2,
    hinit, hpop1, hbody, hstep, hcL, hcnd1, hend1, hpop2, hcLsh.2.1,
    rfl, hshL.1, ?_, List.getLast?_concat _, readyInsert_self_mem _ _,
    hcP, hcnd2, hend2, hcP2, hcPsh.2.1, hgj, hDout.symm⟩
  exact hshL.2.2

/-- C6's witness scenario: `for (i = 0; i < 3; i += 1) { x = 1; }` inside
function `main` (as produced by the rebranch pass). -/
def progC6 : ParserNode :=
  .For (.VariableAssignment "i" (.NumberLiteral 0))
    (.Operation (.Identifier "i") (.NumberLiteral 3) .LessThan)
    (.OpEquals "i" (.NumberLiteral 1) .Add)
    (.Block [.VariableAssignment "x" (.NumberLiteral 1)])

/-- The namespace-only environment for C6's witness. -/
def envC6 : Env := ⟨"p", []⟩

/-- The state C6's witness starts from: inside `main`, no open stacks. -/
def c6Start : CGState :=
  ⟨[⟨"main", ResourceLocation.scoreboard "p" "main", false, 0⟩],
    [], [], 0, 0, 0, false, false⟩

/-- The anonymous loop function `main/0` the C6 scenario produces: body,
step, the first condition lowering, and the self-recursive guarded call
last. -/
def c6Loop : Function :=
  ⟨"main/0", sbPM,
    [.SetVariableToNumber (getTmp sbPM 1) 1,
     .SetVariableToVariable ⟨sbPM, "x"⟩ (getTmp sbPM 1),
     .SetVariableToNumber (getTmp sbPM 1) 1,
     .AddVariables ⟨sbPM, "i"⟩ (getTmp sbPM 1),
     .SetVariableToVariable (getTmp sbPM 1) ⟨sbPM, "i"⟩,
     .SetVariableToNumber (getTmp sbPM 2) 3,
     .SubtractVariables (getTmp sbPM 1) (getTmp sbPM 2),
     .ExecuteIf "score TMP1 p.main matches ..-1"
       (.SetVariableToNumber (getTmp sbPM 1) 1),
     .ExecuteIf "score TMP1 p.main matches 1"
       (.CallFunction (ResourceLocation.new "p" "main/0"))],
    true⟩

/-- The final traversal state of the C6 scenario. -/
def c6Fin : CGState :=
  ⟨[⟨"main", ResourceLocation.scoreboard "p" "main", false, 1⟩],
    [c6Loop], [], 0, 1, 0, false, false⟩

/-- The delta appended to `main` by the C6 scenario: init, the second
condition lowering, and the guarded entry call. -/
def c6Out : List Action :=
  [.SetVariableToNumber (getTmp sbPM 1) 0,
   .SetVariableToVariable ⟨sbPM, "i"⟩ (getTmp sbPM 1),
   .SetVariableToVariable (getTmp sbPM 1) ⟨sbPM, "i"⟩,
   .SetVariableToNumber (getTmp sbPM 2) 3,
   .SubtractVariables (getTmp sbPM 1) (getTmp sbPM 2),
   .ExecuteIf "score TMP1 p.main matches ..-1"
     (.SetVariableToNumber (getTmp sbPM 1) 1),
   .ExecuteIf "score TMP1 p.main matches 1"
     (.CallFunction (ResourceLocation.new "p" "main/0"))]

/-- C6 witness: the theorem applied to
`for (i = 0; i < 3; i += 1) { x = 1; }` in `main`. -/
theorem C6_witness :
    ∃ (stA stA2 stB stS stC stD stH stF stG : CGState)
      (parent cL cL2 cP cP2 : FuncCtx) (fL : Function)
      (dInit dBody dStep dCond1 dCond2 fl1 fl2 gj : List Action)
      (t1 t2 : Int),
      visit_node envC6 9 (.VariableAssignment "i" (.NumberLiteral 0))
        { c6Start with loopDepth := c6Start.loopDepth + 1 }
        = some (stA, dInit) ∧
      popCtx stA = some (parent, stA2) ∧
      visit_node envC6 9 (.Block [.VariableAssignment "x" (.NumberLiteral 1)])
        { stA2 with ctxStack := parent.makeAnonymousChild.1 ::
            parent.makeAnonymousChild.2 :: stA2.ctxStack }
        = some (stB, dBody) ∧
      visit_node envC6 9 (.OpEquals "i" (.NumberLiteral 1) .Add) stB
        = some (stS, dStep) ∧
      stS.ctxStack.head? = some cL ∧
      visit_node envC6 9
        (.Operation (.Identifier "i") (.NumberLiteral 3) .LessThan)
        (beginEvaluation cL.scoreboard stS)
        = some (stC, dCond1) ∧
      endCurrentEvaluation stC = some (t1, fl1, stD) ∧
      popCtx stD = some (cL2, stH) ∧
      cL2.scoreboard = cL.scoreboard ∧
      fL = ⟨cL2.name, cL2.scoreboard,
        dBody ++ dStep ++ dCond1 ++ fl1 ++
          [Action.ExecuteIf
            ("score " ++ (ctxTmp cL2 t1).str ++ " matches 1")
            (.CallFunction (ResourceLocation.new envC6.ns
              parent.makeAnonymousChild.1.name))],
        cL2.isAnonymous⟩ ∧
      fL.name = parent.makeAnonymousChild.1.name ∧
      fL.isAnonymous = true ∧
      fL.actions.getLast? = some (Action.ExecuteIf
        ("score " ++ (ctxTmp cL2 t1).str ++ " matches 1")
        (.CallFunction (ResourceLocation.new envC6.ns
          parent.makeAnonymousChild.1.name))) ∧
      fL ∈ ({ stH with ready := readyInsert stH.ready fL } : CGState).ready ∧
      ({ stH with ready := readyInsert stH.ready fL } : CGState).ctxStack.head?
        = some cP ∧
      visit_node envC6 9
        (.Operation (.Identifier "i") (.NumberLiteral 3) .LessThan)
        (beginEvaluation cP.scoreboard
          { stH with ready := readyInsert stH.ready fL })
        = some (stF, dCond2) ∧
      endCurrentEvaluation stF = some (t2, fl2, stG) ∧
      stG.ctxStack.head? = some cP2 ∧
      cP2.scoreboard = cP.scoreboard ∧
      accountForJumps
        { stG with
          flagTmpCount := stG.flagTmpCount + 1
          propagateBreak := false } = some gj ∧
      c6Out = dInit ++ dCond2 ++ fl2 ++
        [Action.ExecuteIf
          ("score " ++ (ctxTmp cP2 t2).str ++ " matches 1")
          (.CallFunction (ResourceLocation.new envC6.ns
            parent.makeAnonymousChild.1.name))] ++ gj := by
  have h : visit_node envC6 (9 + 1) progC6 c6Start = some (c6Fin, c6Out) :=
    rfl
  exact C6_theorem h

end Sculk
